import Mathlib

/-!
# go-jira-client: pagination and attachment reconciliation

A shallow embedding of `jira.go` (package `gojira`).

* HTTP and the local file system are an explicit environment `Env`; every
  operation threads the list of requests attempted so far.
* A run that ends in a Go panic or in `log.Fatal` is the outcome `crash`.
* Go's `(value, error)` results are pairs whose second component is an
  `Option Error` (`none` is Go's `nil`).
* `float64` is modelled as sign, integer mantissa and binary exponent with
  round-to-nearest-even at 53 bits; `int` is the 64-bit integer type.
-/

namespace Gojira

/-! ## Outcomes, errors and the environment -/

/-- Result of running a Go function: it returns, or the process panics / exits. -/
inductive Outcome (α : Type) where
  | crash : Outcome α
  | ret (a : α) : Outcome α
deriving DecidableEq, Repr

/-- Go `error` values met in `jira.go`: the package's `JiraError` and errors of package `os`. -/
inductive Error where
  | JiraError (What : String) : Error
  | osError (msg : String) : Error
deriving DecidableEq, Repr

/-- An HTTP request as built by `http.NewRequest`; `file` is the local path whose
content is sent as the multipart form file (`none` for a nil body). -/
structure Request where
  method : String
  url : String
  file : Option String
deriving DecidableEq, Repr

/-- The part of `http.Response` the code reads. -/
structure Response where
  StatusCode : Int
  Body : String
deriving DecidableEq, Repr

/-- Struct `Attachment` (field `Author` is never read and left out). -/
structure Attachment where
  Self : String
  Id : String
  Filename : String
  Size : Int
  MimeType : String
  Content : String
deriving DecidableEq, Repr

/-- Struct `IssueFields`; the pointer fields `IssueType`, `Reporter`, `Assignee`
and `Project` are never read by the operations below and are left out. -/
structure IssueFields where
  Summary : String
  Description : String
  Attachment : List Attachment
  Created : String
deriving DecidableEq, Repr

/-- Struct `Issue`; `Fields` is a pointer in Go, `none` is the nil pointer. -/
structure Issue where
  Id : String
  Key : String
  Self : String
  Expand : String
  Fields : Option IssueFields
deriving DecidableEq, Repr

/-- The zero value `Issue{}`. -/
def Issue.zero : Issue := ⟨"", "", "", "", none⟩

/-- Struct `Jira` (the HTTP client and the credentials live in `Env`). -/
structure Jira where
  BaseUrl : String
  ApiPath : String
  ActivityPath : String
deriving DecidableEq, Repr

/-- Requests attempted so far, oldest first. -/
abbrev Trace := List Request

/-- Everything outside the package that the attachment operations consult. -/
structure Env where
  /-- The exchange `http.NewRequest` + `Client.Do(req)` after the requests in the
  trace; `none` when the request cannot be built, the round trip returns an error
  or (for the upload) the response body cannot be read. -/
  Do : Trace → Request → Option Response
  /-- The value `json.Unmarshal(contents, &issue)` leaves in a fresh `issue`. -/
  unmarshalIssue : String → Issue
  /-- The error of `os.Open(path)`, `none` when the file opens. -/
  Open : String → Option Error
  /-- Whether `os.Create(fileName)` succeeds. -/
  Create : String → Bool
  /-- Whether `io.Copy(output, response.Body)` succeeds. -/
  Copy : String → Response → Bool
  /-- The result of `os.Getwd()`. -/
  Getwd : String × Option Error
  /-- The Unicode table behind `unicode.SimpleFold`: whether iterating it from the
  smaller rune reaches the larger one. -/
  foldOrbit : Char → Char → Bool

/-! ## Library functions used by the attachment code -/

/-- The constant `os.PathSeparator` (Unix). -/
def PathSeparator : Char := '/'

/-- One step of `strings.EqualFold`: are the runes `sr` and `tr` equal under simple
case folding. -/
def runeEqualFold (orbit : Char → Char → Bool) (sr tr : Char) : Bool :=
  if tr = sr then true
  else
    let lo := if tr < sr then tr else sr
    let hi := if tr < sr then sr else tr
    if hi.toNat < 0x80 then
      decide ('A'.toNat ≤ lo.toNat ∧ lo.toNat ≤ 'Z'.toNat ∧ hi.toNat = lo.toNat + 32)
    else orbit lo hi

/-- The rune loop of `strings.EqualFold`. -/
def equalFoldRunes (orbit : Char → Char → Bool) : List Char → List Char → Bool
  | [], t => t.isEmpty
  | _ :: _, [] => false
  | sr :: s, tr :: t => runeEqualFold orbit sr tr && equalFoldRunes orbit s t

/-- Function `strings.EqualFold` on (valid UTF-8) strings. -/
def EqualFold (orbit : Char → Char → Bool) (s t : String) : Bool :=
  equalFoldRunes orbit s.data t.data

/-- Function `filepath.Base` (Unix): the last element of the path, trailing
separators removed; `"."` for the empty path, `"/"` for a path of separators only. -/
def Base (path : String) : String :=
  if path = "" then "."
  else
    let stripped := path.data.reverse.dropWhile (fun c => c == PathSeparator)
    let last := stripped.takeWhile (fun c => !(c == PathSeparator))
    if last = [] then String.singleton PathSeparator else String.mk last.reverse

/-! ## The request executor and the issue reader -/

/-- Method `buildAndExecRequest`: one request with a nil body; returns the body and
the status code. A failed round trip leaves `resp` nil and the deferred
`resp.Body.Close()` panics. -/
def Jira.buildAndExecRequest (_j : Jira) (env : Env) (method url : String) (tr : Trace) :
    Outcome (String × Int) × Trace :=
  let req : Request := ⟨method, url, none⟩
  match env.Do tr req with
  | none => (.crash, tr ++ [req])
  | some resp => (.ret (resp.Body, resp.StatusCode), tr ++ [req])

/-- Method `Issue`: search an issue by its id. -/
def Jira.Issue (j : Jira) (env : Env) (id : String) (tr : Trace) :
    Outcome (Issue × Option Error) × Trace :=
  let url := j.BaseUrl ++ j.ApiPath ++ "/issue/" ++ id
  match j.buildAndExecRequest env "GET" url tr with
  | (.crash, tr1) => (.crash, tr1)
  | (.ret (contents, code), tr1) =>
    if code = 404 then
      (.ret (Issue.zero, some (.JiraError ("Issue [" ++ id ++ "] has not been found"))), tr1)
    else
      (.ret (env.unmarshalIssue contents, none), tr1)

/-! ## Attachment resolver -/

/-- The `for _, attachment := range issue.Fields.Attachment` loop of `FindAttachment`:
the id of the first attachment whose filename folds to `name`. -/
def findLoop (orbit : Char → Char → Bool) (name : String) : List Attachment → Option String
  | [] => none
  | attachment :: rest =>
    if EqualFold orbit attachment.Filename name then some attachment.Id
    else findLoop orbit name rest

/-- Method `FindAttachment`. Reading `issue.Fields.Attachment` through a nil `Fields`
panics. -/
def Jira.FindAttachment (j : Jira) (env : Env) (issueKey attachmentFileName : String)
    (tr : Trace) : Outcome (String × Option Error) × Trace :=
  match j.Issue env issueKey tr with
  | (.crash, tr1) => (.crash, tr1)
  | (.ret (_, some err), tr1) => (.ret ("", some err), tr1)
  | (.ret (issue, none), tr1) =>
    match issue.Fields with
    | none => (.crash, tr1)
    | some fields =>
      match findLoop env.foldOrbit (Base attachmentFileName) fields.Attachment with
      | some id => (.ret (id, none), tr1)
      | none =>
        (.ret ("", some (.JiraError
          ("Attachment " ++ attachmentFileName ++ " has not been found"))), tr1)

/-- Method `HasAttachment`. -/
def Jira.HasAttachment (j : Jira) (env : Env) (issueKey attachmentFileName : String)
    (tr : Trace) : Outcome (Bool × Option Error) × Trace :=
  match j.FindAttachment env issueKey attachmentFileName tr with
  | (.crash, tr1) => (.crash, tr1)
  | (.ret (_, some err), tr1) => (.ret (false, some err), tr1)
  | (.ret (attachmentId, none), tr1) => (.ret (attachmentId != "", none), tr1)

/-! ## Attachment reconciler -/

/-- Method `RemoveAttachment`: true iff the upstream answers 204. -/
def Jira.RemoveAttachment (j : Jira) (env : Env) (issueId : String) (tr : Trace) :
    Outcome Bool × Trace :=
  let url := j.BaseUrl ++ j.ApiPath ++ "/attachment/" ++ issueId
  match j.buildAndExecRequest env "DELETE" url tr with
  | (.crash, tr1) => (.crash, tr1)
  | (.ret (_, code), tr1) => (.ret (code == 204), tr1)

/-- Method `createRequestWithAttachment`: open the file, POST it as a multipart
form file. A failed `os.Open` is returned; a failed round trip ends in `log.Fatal`. -/
def Jira.createRequestWithAttachment (_j : Jira) (env : Env) (url path : String) (tr : Trace) :
    Outcome (Option Response × Option Error) × Trace :=
  match env.Open path with
  | some err => (.ret (none, some err), tr)
  | none =>
    let req : Request := ⟨"POST", url, some path⟩
    match env.Do tr req with
    | none => (.crash, tr ++ [req])
    | some resp => (.ret (some resp, none), tr ++ [req])

/-- Method `AddAttachment`. -/
def Jira.AddAttachment (j : Jira) (env : Env) (issueKey path : String) (tr : Trace) :
    Outcome (Option Error) × Trace :=
  let url := j.BaseUrl ++ j.ApiPath ++ "/issue/" ++ issueKey ++ "/attachments"
  match j.HasAttachment env issueKey (Base path) tr with
  | (.crash, tr1) => (.crash, tr1)
  | (.ret (_, some err), tr1) => (.ret (some err), tr1)
  | (.ret (hasAttachment, none), tr1) =>
    if hasAttachment then
      (.ret (some (.JiraError ("Jira issue " ++ issueKey ++ " already has XLA attachment"))), tr1)
    else
      match j.createRequestWithAttachment env url path tr1 with
      | (.crash, tr2) => (.crash, tr2)
      | (.ret (_, some err), tr2) => (.ret (some err), tr2)
      | (.ret (none, none), tr2) => (.crash, tr2)
      | (.ret (some resp, none), tr2) =>
        if resp.StatusCode ≠ 200 then
          (.ret (some (.JiraError
            ("Failed to add attachment. Status code is " ++ toString resp.StatusCode))), tr2)
        else (.ret none, tr2)

/-- Method `UpdateAttachment`. The result of `RemoveAttachment` is discarded. -/
def Jira.UpdateAttachment (j : Jira) (env : Env) (issueKey path : String) (tr : Trace) :
    Outcome (Option Error) × Trace :=
  match j.FindAttachment env issueKey path tr with
  | (.crash, tr1) => (.crash, tr1)
  | (.ret (_, some err), tr1) => (.ret (some err), tr1)
  | (.ret (attachmentId, none), tr1) =>
    if attachmentId != "" then
      match j.RemoveAttachment env attachmentId tr1 with
      | (.crash, tr2) => (.crash, tr2)
      | (.ret _, tr2) => j.AddAttachment env issueKey path tr2
    else j.AddAttachment env issueKey path tr1

/-- Method `downloadFromUrl`: create the local file, GET the url, copy the body.
Each failure ends in `log.Fatal` (or a nil dereference). Removing an existing
local file has no effect on the requests and is not recorded. -/
def Jira.downloadFromUrl (_j : Jira) (env : Env) (url fileName : String) (tr : Trace) :
    Outcome Unit × Trace :=
  if env.Create fileName then
    let req : Request := ⟨"GET", url, none⟩
    match env.Do tr req with
    | none => (.crash, tr ++ [req])
    | some response =>
      if env.Copy fileName response then (.ret (), tr ++ [req]) else (.crash, tr ++ [req])
  else (.crash, tr)

/-- The `for _, attachment := range issue.Fields.Attachment` loop of
`DownloadAttachment`: the first attachment whose filename folds to `name`. -/
def downloadLoop (orbit : Char → Char → Bool) (name : String) :
    List Attachment → Option Attachment
  | [] => none
  | attachment :: rest =>
    if EqualFold orbit attachment.Filename name then some attachment
    else downloadLoop orbit name rest

/-- Method `DownloadAttachment`. -/
def Jira.DownloadAttachment (j : Jira) (env : Env) (issueId attachmentFileName : String)
    (tr : Trace) : Outcome (String × Option Error) × Trace :=
  match j.Issue env issueId tr with
  | (.crash, tr1) => (.crash, tr1)
  | (.ret (_, some err), tr1) => (.ret ("", some err), tr1)
  | (.ret (issue, none), tr1) =>
    match issue.Fields with
    | none => (.crash, tr1)
    | some fields =>
      match downloadLoop env.foldOrbit attachmentFileName fields.Attachment with
      | some attachment =>
        match j.downloadFromUrl env attachment.Content attachmentFileName tr1 with
        | (.crash, tr2) => (.crash, tr2)
        | (.ret _, tr2) =>
          (.ret (env.Getwd.1 ++ String.singleton PathSeparator ++ attachmentFileName,
            env.Getwd.2), tr2)
      | none => (.ret ("", some (.JiraError "Attachment hasn't been found")), tr1)

/-! ## Names used to state the properties -/

/-- The request `Issue` sends for the issue `id`. -/
def issueRequest (j : Jira) (id : String) : Request :=
  ⟨"GET", j.BaseUrl ++ j.ApiPath ++ "/issue/" ++ id, none⟩

/-- The request `RemoveAttachment` sends for the attachment `id`. -/
def deleteRequest (j : Jira) (id : String) : Request :=
  ⟨"DELETE", j.BaseUrl ++ j.ApiPath ++ "/attachment/" ++ id, none⟩

/-- The request `createRequestWithAttachment` sends for `AddAttachment`. -/
def uploadRequest (j : Jira) (issueKey path : String) : Request :=
  ⟨"POST", j.BaseUrl ++ j.ApiPath ++ "/issue/" ++ issueKey ++ "/attachments", some path⟩

/-- The error `FindAttachment` returns when no attachment matches. -/
def attachmentNotFound (attachmentFileName : String) : Error :=
  .JiraError ("Attachment " ++ attachmentFileName ++ " has not been found")

/-- The error `Issue` returns on status 404. -/
def issueNotFound (id : String) : Error :=
  .JiraError ("Issue [" ++ id ++ "] has not been found")

/-- The error `AddAttachment` returns when the attachment exists already. -/
def alreadyExists (issueKey : String) : Error :=
  .JiraError ("Jira issue " ++ issueKey ++ " already has XLA attachment")

/-- The request `downloadFromUrl` sends for a content url. -/
def downloadRequest (url : String) : Request := ⟨"GET", url, none⟩

/-- The error `DownloadAttachment` returns when no attachment matches. -/
def downloadNotFound : Error := .JiraError "Attachment hasn't been found"

/-! ## float64 and int -/

/-- A `float64` value: NaN, an infinity, or the finite value `(-1)^neg * m * 2^e`
(a zero mantissa with `neg` set is the negative zero). -/
inductive F64 where
  | nan : F64
  | inf (neg : Bool) : F64
  | fin (neg : Bool) (m : Nat) (e : Int) : F64
deriving DecidableEq, Repr

/-- What the Go implementation fixes beyond the language specification. -/
structure Impl where
  /-- The result of `int(f)` when `f` is NaN, infinite or outside the range of `int`
  (implementation-dependent by the language specification). -/
  intOfNonRep : F64 → Int
  /-- The largest length for which `make([]int, n)` returns. -/
  maxLen : Nat

/-- Position of the highest set bit, by halving at most `fuel` times. -/
def log2Fuel : Nat → Nat → Nat
  | 0, _ => 0
  | fuel + 1, n => if n < 2 then 0 else log2Fuel fuel (n / 2) + 1

/-- Floor of the binary logarithm (0 for 0). -/
def ilog2 (n : Nat) : Nat := log2Fuel n n

/-- Round-to-nearest-even of the positive quotient `n / d` to a 53-bit mantissa:
the pair `(m, e)` stands for `m * 2^e`. The exponent range of `float64` is not
bounded here: every quotient of two converted `int` values lies between 2^-63
and 2^63, far inside the normal range. -/
def roundPos (n d : Nat) : Nat × Int :=
  let up := ilog2 d + 54
  let N := n * 2 ^ up
  let k := ilog2 (N / d) - 52
  let den := d * 2 ^ k
  let q := N / den
  let r := N % den
  let m := if den < 2 * r ∨ (2 * r = den ∧ q % 2 = 1) then q + 1 else q
  (m, (k : Int) - (up : Int))

/-- The conversion `float64(i)` of an `int`. -/
def F64.ofInt (i : Int) : F64 :=
  if i = 0 then .fin false 0 0
  else .fin (decide (i < 0)) (roundPos i.natAbs 1).1 (roundPos i.natAbs 1).2

/-- The quotient `x / y` of two `float64` values. -/
def F64.div : F64 → F64 → F64
  | .nan, _ => .nan
  | _, .nan => .nan
  | .inf _, .inf _ => .nan
  | .inf s, .fin t _ _ => .inf (xor s t)
  | .fin s _ _, .inf t => .fin (xor s t) 0 0
  | .fin s m e, .fin t m2 e2 =>
    if m2 = 0 then (if m = 0 then .nan else .inf (xor s t))
    else if m = 0 then .fin (xor s t) 0 0
    else .fin (xor s t) (roundPos m m2).1 ((roundPos m m2).2 + e - e2)

/-- Function `math.Ceil`. -/
def F64.Ceil : F64 → F64
  | .fin neg m e =>
    if 0 ≤ e then .fin neg m e
    else if neg then .fin true (m / 2 ^ (-e).toNat) 0
    else .fin false ((m + 2 ^ (-e).toNat - 1) / 2 ^ (-e).toNat) 0
  | x => x

/-- The conversion `int(f)`: truncation toward zero when the result fits `int`. -/
def F64.toInt (impl : Impl) (x : F64) : Int :=
  match x with
  | .fin neg m e =>
    let mag : Nat := if 0 ≤ e then m * 2 ^ e.toNat else m / 2 ^ (-e).toNat
    let v : Int := if neg then -(mag : Int) else (mag : Int)
    if -2 ^ 63 ≤ v ∧ v < 2 ^ 63 then v else impl.intOfNonRep x
  | _ => impl.intOfNonRep x

/-- The allocation `make([]int, n)`: a run-time panic for a negative or too large
length, else `n` zeros. -/
def makeInts (impl : Impl) (n : Int) : Option (List Int) :=
  if 0 ≤ n ∧ n.toNat ≤ impl.maxLen then some (List.replicate n.toNat 0) else none

/-- The loop `for i := range p.Pages { p.Pages[i] = i }`. -/
def fillPages (pages : List Int) : List Int :=
  (List.range pages.length).foldl (fun acc i => acc.set i (i : Int)) pages

/-! ## Pagination calculator -/

/-- Struct `Pagination`. -/
structure Pagination where
  Total : Int
  StartAt : Int
  MaxResults : Int
  Page : Int
  PageCount : Int
  Pages : List Int
deriving DecidableEq, Repr

/-- Method `Compute`. The receiver is a pointer: the second component is the struct
as the method leaves it, also when the allocation of `Pages` panics. -/
def Pagination.Compute (impl : Impl) (p : Pagination) : Outcome Unit × Pagination :=
  let p1 := { p with
    PageCount := F64.toInt impl
      (F64.Ceil (F64.div (F64.ofInt p.Total) (F64.ofInt p.MaxResults))) }
  let p2 := { p1 with
    Page := F64.toInt impl
      (F64.Ceil (F64.div (F64.ofInt p1.StartAt) (F64.ofInt p1.MaxResults))) }
  match makeInts impl p2.PageCount with
  | none => (.crash, p2)
  | some pages => (.ret (), { p2 with Pages := fillPages pages })

/-- The gc toolchain on linux/amd64, on a machine whose memory holds slices of up to
2^30 `int`: a non-representable conversion yields the smallest `int`. (Beyond
2^48 bytes, 2^45 elements, `make` panics on any such machine.) -/
def amd64 : Impl := ⟨fun _ => -2 ^ 63, 2 ^ 30⟩

/-- The scaled quotient that `roundPos` rounds to an integer, as a rational. -/
def scaled (n d : Nat) : ℚ := (n : ℚ) / (d : ℚ) * (2 : ℚ) ^ (-(roundPos n d).2)

/-! ## Sample data -/

/-- A client configuration used in the examples. -/
def sampleJira : Jira := ⟨"https://jira.example.org", "/rest/api/2", "/activity"⟩

/-- An attachment with the given id and filename. -/
def sampleAttachment (id filename : String) : Attachment :=
  ⟨"", id, filename, 0, "", "https://jira.example.org/secure/attachment/" ++ id⟩

/-- An issue record whose field set holds the given attachments. -/
def sampleIssue (attachments : List Attachment) : Issue :=
  ⟨"1", "PRJ-1", "", "", some ⟨"", "", attachments, ""⟩⟩

/-- Decoder of the sample bodies: the body names the attachment list; any other body
leaves the zero issue, whose `Fields` is nil. -/
def sampleDecode (body : String) : Issue :=
  if body = "two" then
    sampleIssue [sampleAttachment "10001" "Report.PDF", sampleAttachment "10002" "notes.txt"]
  else if body = "old" then sampleIssue [sampleAttachment "7" "a.txt"]
  else if body = "blank-id" then sampleIssue [sampleAttachment "" "a.txt"]
  else if body = "empty" then sampleIssue []
  else Issue.zero

/-- An environment that answers the n-th request with the n-th scripted reply; the
local file system never fails. -/
def scriptedEnv (replies : List Response) : Env where
  Do := fun tr _ => replies.get? tr.length
  unmarshalIssue := sampleDecode
  Open := fun _ => none
  Create := fun _ => true
  Copy := fun _ _ => true
  Getwd := ("/home/user", none)
  foldOrbit := fun _ _ => false

/-- The scripted environment in which `os.Create` fails. -/
def readOnlyEnv (replies : List Response) : Env :=
  { scriptedEnv replies with Create := fun _ => false }

/-! ## Lemmas on the issue reader and the resolver -/

theorem Issue_fetched (j : Jira) (env : Env) (id : String) (tr : Trace) (resp : Response)
    (hdo : env.Do tr (issueRequest j id) = some resp) (hcode : resp.StatusCode ≠ 404) :
    j.Issue env id tr = (.ret (env.unmarshalIssue resp.Body, none), tr ++ [issueRequest j id]) := by
  unfold issueRequest at hdo
  simp [Jira.Issue, Jira.buildAndExecRequest, hdo, hcode, issueRequest]

theorem Issue_404 (j : Jira) (env : Env) (id : String) (tr : Trace) (resp : Response)
    (hdo : env.Do tr (issueRequest j id) = some resp) (hcode : resp.StatusCode = 404) :
    j.Issue env id tr = (.ret (Issue.zero, some (issueNotFound id)), tr ++ [issueRequest j id]) := by
  unfold issueRequest at hdo
  simp [Jira.Issue, Jira.buildAndExecRequest, hdo, hcode, issueRequest, issueNotFound]

theorem Issue_failed (j : Jira) (env : Env) (id : String) (tr : Trace)
    (hdo : env.Do tr (issueRequest j id) = none) :
    j.Issue env id tr = (.crash, tr ++ [issueRequest j id]) := by
  unfold issueRequest at hdo
  simp [Jira.Issue, Jira.buildAndExecRequest, hdo, issueRequest]

theorem findLoop_append (orbit : Char → Char → Bool) (name : String) (pre : List Attachment)
    (a : Attachment) (post : List Attachment)
    (hpre : ∀ b ∈ pre, EqualFold orbit b.Filename name = false)
    (ha : EqualFold orbit a.Filename name = true) :
    findLoop orbit name (pre ++ a :: post) = some a.Id := by
  induction pre with
  | nil => simp [findLoop, ha]
  | cons b pre ih =>
    have hb := hpre b (List.mem_cons_self _ _)
    simp only [List.cons_append, findLoop, hb]
    exact ih (fun c hc => hpre c (List.mem_cons_of_mem _ hc))

theorem findLoop_none_iff (orbit : Char → Char → Bool) (name : String) (l : List Attachment) :
    findLoop orbit name l = none ↔ ∀ a ∈ l, EqualFold orbit a.Filename name = false := by
  induction l with
  | nil => simp [findLoop]
  | cons b l ih =>
    by_cases hb : EqualFold orbit b.Filename name = true
    · simp [findLoop, hb]
    · simp only [Bool.not_eq_true] at hb
      simp [findLoop, hb, ih]

theorem Base_idem (path : String) : Base (Base path) = Base path := by
  by_cases hp : path = ""
  · subst hp; decide
  · unfold Base
    simp only [hp, if_false]
    generalize List.dropWhile (fun c => c == PathSeparator) path.data.reverse = stripped
    generalize hl : List.takeWhile (fun c => !(c == PathSeparator)) stripped = last
    by_cases hnil : last = []
    · simp only [hnil, if_true]; decide
    · simp only [hnil, if_false]
      have hne : String.mk last.reverse ≠ "" := by
        intro h
        have := congrArg String.data h
        simp at this
        exact hnil this
      simp only [hne, if_false, List.reverse_reverse]
      have hall : ∀ c ∈ last, (!(c == PathSeparator)) = true := by
        intro c hc
        rw [← hl] at hc
        exact List.mem_takeWhile_imp (p := fun c => !(c == PathSeparator)) hc
      have h1 : List.dropWhile (fun c => c == PathSeparator) last = last := by
        cases last with
        | nil => exact absurd rfl hnil
        | cons c t =>
          have := hall c (List.mem_cons_self _ _)
          simp only [Bool.not_eq_true'] at this
          simp [List.dropWhile, this]
      have h2 : List.takeWhile (fun c => !(c == PathSeparator)) last = last := by
        rw [List.takeWhile_eq_self_iff]
        exact hall
      rw [h1, h2]
      simp [hnil]

/-- What `FindAttachment` does once the issue is fetched with a field set. -/
theorem FindAttachment_fetched (j : Jira) (env : Env) (issueKey name : String) (tr : Trace)
    (resp : Response) (fields : IssueFields)
    (hdo : env.Do tr (issueRequest j issueKey) = some resp) (hcode : resp.StatusCode ≠ 404)
    (hfields : (env.unmarshalIssue resp.Body).Fields = some fields) :
    j.FindAttachment env issueKey name tr =
      match findLoop env.foldOrbit (Base name) fields.Attachment with
      | some id => (.ret (id, none), tr ++ [issueRequest j issueKey])
      | none => (.ret ("", some (attachmentNotFound name)), tr ++ [issueRequest j issueKey]) := by
  simp only [Jira.FindAttachment, Issue_fetched j env issueKey tr resp hdo hcode, hfields,
    attachmentNotFound]

theorem FindAttachment_404 (j : Jira) (env : Env) (issueKey name : String) (tr : Trace)
    (resp : Response)
    (hdo : env.Do tr (issueRequest j issueKey) = some resp) (hcode : resp.StatusCode = 404) :
    j.FindAttachment env issueKey name tr =
      (.ret ("", some (issueNotFound issueKey)), tr ++ [issueRequest j issueKey]) := by
  simp only [Jira.FindAttachment, Issue_404 j env issueKey tr resp hdo hcode]

/-- Without a match `FindAttachment` returns its not-found error. -/
theorem FindAttachment_no_match (j : Jira) (env : Env) (issueKey name : String) (tr : Trace)
    (resp : Response) (fields : IssueFields)
    (hdo : env.Do tr (issueRequest j issueKey) = some resp) (hcode : resp.StatusCode ≠ 404)
    (hfields : (env.unmarshalIssue resp.Body).Fields = some fields)
    (hnone : ∀ a ∈ fields.Attachment, EqualFold env.foldOrbit a.Filename (Base name) = false) :
    j.FindAttachment env issueKey name tr =
      (.ret ("", some (attachmentNotFound name)), tr ++ [issueRequest j issueKey]) := by
  rw [FindAttachment_fetched j env issueKey name tr resp fields hdo hcode hfields,
    (findLoop_none_iff _ _ _).2 hnone]

/-- With a first match `FindAttachment` returns its id. -/
theorem FindAttachment_match (j : Jira) (env : Env) (issueKey name : String) (tr : Trace)
    (resp : Response) (fields : IssueFields) (pre : List Attachment) (a : Attachment)
    (post : List Attachment)
    (hdo : env.Do tr (issueRequest j issueKey) = some resp) (hcode : resp.StatusCode ≠ 404)
    (hfields : (env.unmarshalIssue resp.Body).Fields = some fields)
    (hsplit : fields.Attachment = pre ++ a :: post)
    (hpre : ∀ b ∈ pre, EqualFold env.foldOrbit b.Filename (Base name) = false)
    (ha : EqualFold env.foldOrbit a.Filename (Base name) = true) :
    j.FindAttachment env issueKey name tr =
      (.ret (a.Id, none), tr ++ [issueRequest j issueKey]) := by
  rw [FindAttachment_fetched j env issueKey name tr resp fields hdo hcode hfields, hsplit,
    findLoop_append _ _ pre a post hpre ha]

theorem downloadLoop_append (orbit : Char → Char → Bool) (name : String)
    (pre : List Attachment) (a : Attachment) (post : List Attachment)
    (hpre : ∀ b ∈ pre, EqualFold orbit b.Filename name = false)
    (ha : EqualFold orbit a.Filename name = true) :
    downloadLoop orbit name (pre ++ a :: post) = some a := by
  induction pre with
  | nil => simp [downloadLoop, ha]
  | cons b pre ih =>
    have hb := hpre b (List.mem_cons_self _ _)
    simp only [List.cons_append, downloadLoop, hb]
    exact ih (fun c hc => hpre c (List.mem_cons_of_mem _ hc))

theorem downloadLoop_none_iff (orbit : Char → Char → Bool) (name : String)
    (l : List Attachment) :
    downloadLoop orbit name l = none ↔ ∀ a ∈ l, EqualFold orbit a.Filename name = false := by
  induction l with
  | nil => simp [downloadLoop]
  | cons b l ih =>
    by_cases hb : EqualFold orbit b.Filename name = true
    · simp [downloadLoop, hb]
    · simp only [Bool.not_eq_true] at hb
      simp [downloadLoop, hb, ih]

/-- What `HasAttachment` does on top of `FindAttachment`. -/
theorem HasAttachment_eq (j : Jira) (env : Env) (issueKey name : String) (tr : Trace) :
    j.HasAttachment env issueKey name tr =
      match j.FindAttachment env issueKey name tr with
      | (.crash, tr1) => (.crash, tr1)
      | (.ret (_, some err), tr1) => (.ret (false, some err), tr1)
      | (.ret (attachmentId, none), tr1) => (.ret (attachmentId != "", none), tr1) := rfl

/-- Without a match `AddAttachment` stops at the resolver's error. -/
theorem AddAttachment_not_found (j : Jira) (env : Env) (issueKey path : String) (tr : Trace)
    (resp : Response) (fields : IssueFields)
    (hdo : env.Do tr (issueRequest j issueKey) = some resp) (hcode : resp.StatusCode ≠ 404)
    (hfields : (env.unmarshalIssue resp.Body).Fields = some fields)
    (hnone : ∀ a ∈ fields.Attachment, EqualFold env.foldOrbit a.Filename (Base path) = false) :
    j.AddAttachment env issueKey path tr =
      (.ret (some (attachmentNotFound (Base path))), tr ++ [issueRequest j issueKey]) := by
  have hnone2 : ∀ a ∈ fields.Attachment,
      EqualFold env.foldOrbit a.Filename (Base (Base path)) = false := by
    rw [Base_idem]; exact hnone
  simp only [Jira.AddAttachment, HasAttachment_eq,
    FindAttachment_no_match j env issueKey (Base path) tr resp fields hdo hcode hfields hnone2]

/-- With a first match of non-empty id `AddAttachment` refuses. -/
theorem AddAttachment_exists (j : Jira) (env : Env) (issueKey path : String) (tr : Trace)
    (resp : Response) (fields : IssueFields) (pre : List Attachment) (a : Attachment)
    (post : List Attachment)
    (hdo : env.Do tr (issueRequest j issueKey) = some resp) (hcode : resp.StatusCode ≠ 404)
    (hfields : (env.unmarshalIssue resp.Body).Fields = some fields)
    (hsplit : fields.Attachment = pre ++ a :: post)
    (hpre : ∀ b ∈ pre, EqualFold env.foldOrbit b.Filename (Base path) = false)
    (ha : EqualFold env.foldOrbit a.Filename (Base path) = true) (hid : a.Id ≠ "") :
    j.AddAttachment env issueKey path tr =
      (.ret (some (alreadyExists issueKey)), tr ++ [issueRequest j issueKey]) := by
  have hpre2 : ∀ b ∈ pre, EqualFold env.foldOrbit b.Filename (Base (Base path)) = false := by
    rw [Base_idem]; exact hpre
  have ha2 : EqualFold env.foldOrbit a.Filename (Base (Base path)) = true := by
    rw [Base_idem]; exact ha
  simp [Jira.AddAttachment, HasAttachment_eq,
    FindAttachment_match j env issueKey (Base path) tr resp fields pre a post hdo hcode hfields
      hsplit hpre2 ha2, hid, alreadyExists]

/-- The requests of `AddAttachment` are appended to the trace it starts from. -/
theorem AddAttachment_trace (j : Jira) (env : Env) (issueKey path : String) (tr : Trace) :
    tr <+: (j.AddAttachment env issueKey path tr).2 := by
  cases hdo : env.Do tr (issueRequest j issueKey) with
  | none =>
    simp [Jira.AddAttachment, HasAttachment_eq, Jira.FindAttachment,
      Issue_failed j env issueKey tr hdo]
  | some resp =>
    by_cases hcode : resp.StatusCode = 404
    · simp [Jira.AddAttachment, HasAttachment_eq,
        FindAttachment_404 j env issueKey (Base path) tr resp hdo hcode]
    · cases hfields : (env.unmarshalIssue resp.Body).Fields with
      | none =>
        simp [Jira.AddAttachment, HasAttachment_eq, Jira.FindAttachment,
          Issue_fetched j env issueKey tr resp hdo hcode, hfields]
      | some fields =>
        simp only [Jira.AddAttachment, HasAttachment_eq,
          FindAttachment_fetched j env issueKey (Base path) tr resp fields hdo hcode hfields]
        cases findLoop env.foldOrbit (Base (Base path)) fields.Attachment with
        | none => simp
        | some id =>
          by_cases hid : id = ""
          · simp only [hid, bne_self_eq_false, Bool.false_eq_true, if_false,
              Jira.createRequestWithAttachment]
            cases env.Open path with
            | some err => simp
            | none =>
              simp only
              cases env.Do (tr ++ [issueRequest j issueKey])
                ⟨"POST", j.BaseUrl ++ j.ApiPath ++ "/issue/" ++ issueKey ++ "/attachments",
                  some path⟩ with
              | none => simp
              | some up =>
                simp only
                split <;> simp
          · have : (id != "") = true := by simpa using hid
            simp only [this, if_true]
            simp

/-! ## Attachment resolver: the properties -/

/-- C4: once the issue is fetched, if the attachment `a` is the first one in list order
whose filename is case-insensitively equal to the base name of the requested
filename, `FindAttachment` returns the id of `a` with no error, whatever follows
`a` in the list (later duplicates included). -/
theorem FindAttachment_first_match (j : Jira) (env : Env) (issueKey attachmentFileName : String)
    (tr : Trace) (resp : Response) (fields : IssueFields) (pre : List Attachment)
    (a : Attachment) (post : List Attachment)
    (hdo : env.Do tr (issueRequest j issueKey) = some resp) (hcode : resp.StatusCode ≠ 404)
    (hfields : (env.unmarshalIssue resp.Body).Fields = some fields)
    (hsplit : fields.Attachment = pre ++ a :: post)
    (hpre : ∀ b ∈ pre,
      EqualFold env.foldOrbit b.Filename (Base attachmentFileName) = false)
    (ha : EqualFold env.foldOrbit a.Filename (Base attachmentFileName) = true) :
    j.FindAttachment env issueKey attachmentFileName tr =
      (.ret (a.Id, none), tr ++ [issueRequest j issueKey]) :=
  FindAttachment_match j env issueKey attachmentFileName tr resp fields pre a post hdo hcode
    hfields hsplit hpre ha

/-- C4, the example of the specification: attachments `Report.PDF` and `notes.txt`,
query `report.pdf`. -/
theorem FindAttachment_first_match_witness :
    sampleJira.FindAttachment (scriptedEnv [⟨200, "two"⟩]) "PRJ-1" "report.pdf" [] =
      (.ret ("10001", none), [issueRequest sampleJira "PRJ-1"]) :=
  FindAttachment_first_match sampleJira (scriptedEnv [⟨200, "two"⟩]) "PRJ-1" "report.pdf" []
    ⟨200, "two"⟩ ⟨"", "", [sampleAttachment "10001" "Report.PDF",
      sampleAttachment "10002" "notes.txt"], ""⟩ [] (sampleAttachment "10001" "Report.PDF")
    [sampleAttachment "10002" "notes.txt"] rfl (by decide) (by decide) rfl (by simp)
    (by decide)

/-- C6 (as amended): once the issue is fetched, if the first attachment whose filename
folds to the base name of the local path has a non-empty id, `AddAttachment`
returns the already-exists error and sends nothing but the issue request: no
upload is issued. -/
theorem AddAttachment_already_exists (j : Jira) (env : Env) (issueKey path : String)
    (tr : Trace) (resp : Response) (fields : IssueFields) (pre : List Attachment)
    (a : Attachment) (post : List Attachment)
    (hdo : env.Do tr (issueRequest j issueKey) = some resp) (hcode : resp.StatusCode ≠ 404)
    (hfields : (env.unmarshalIssue resp.Body).Fields = some fields)
    (hsplit : fields.Attachment = pre ++ a :: post)
    (hpre : ∀ b ∈ pre, EqualFold env.foldOrbit b.Filename (Base path) = false)
    (ha : EqualFold env.foldOrbit a.Filename (Base path) = true) (hid : a.Id ≠ "") :
    j.AddAttachment env issueKey path tr =
      (.ret (some (alreadyExists issueKey)), tr ++ [issueRequest j issueKey]) :=
  AddAttachment_exists j env issueKey path tr resp fields pre a post hdo hcode hfields hsplit
    hpre ha hid

/-- C6 (as amended) on an issue holding `a.txt` under the id 7. -/
theorem AddAttachment_already_exists_witness :
    sampleJira.AddAttachment (scriptedEnv [⟨200, "old"⟩, ⟨200, ""⟩]) "PRJ-1" "/tmp/A.TXT" [] =
      (.ret (some (alreadyExists "PRJ-1")), [issueRequest sampleJira "PRJ-1"]) :=
  AddAttachment_already_exists sampleJira (scriptedEnv [⟨200, "old"⟩, ⟨200, ""⟩]) "PRJ-1"
    "/tmp/A.TXT" [] ⟨200, "old"⟩ ⟨"", "", [sampleAttachment "7" "a.txt"], ""⟩ []
    (sampleAttachment "7" "a.txt") [] rfl (by decide) (by decide) rfl (by simp) (by decide)
    (by decide)

/-- C6 fails as stated: the issue holds an attachment named `a.txt`, its id is the
empty string, and `AddAttachment` uploads `/tmp/a.txt` and returns no error. -/
theorem AddAttachment_blank_id_uploads :
    (sampleDecode "blank-id").Fields = some ⟨"", "", [sampleAttachment "" "a.txt"], ""⟩ ∧
    EqualFold (scriptedEnv []).foldOrbit (sampleAttachment "" "a.txt").Filename
      (Base "/tmp/a.txt") = true ∧
    sampleJira.AddAttachment (scriptedEnv [⟨200, "blank-id"⟩, ⟨200, ""⟩]) "PRJ-1"
        "/tmp/a.txt" [] =
      (.ret none, [issueRequest sampleJira "PRJ-1",
        uploadRequest sampleJira "PRJ-1" "/tmp/a.txt"]) := by
  refine ⟨by decide, by decide, by decide⟩

/-- C7 on the code: once the issue is fetched and no attachment filename folds to the
base name of the local path, `AddAttachment` returns the resolver's
attachment-not-found error and issues no upload, whatever the upstream would answer. -/
theorem AddAttachment_no_match (j : Jira) (env : Env) (issueKey path : String) (tr : Trace)
    (resp : Response) (fields : IssueFields)
    (hdo : env.Do tr (issueRequest j issueKey) = some resp) (hcode : resp.StatusCode ≠ 404)
    (hfields : (env.unmarshalIssue resp.Body).Fields = some fields)
    (hnone : ∀ a ∈ fields.Attachment,
      EqualFold env.foldOrbit a.Filename (Base path) = false)
    (_hopen : env.Open path = none) :
    j.AddAttachment env issueKey path tr =
      (.ret (some (attachmentNotFound (Base path))), tr ++ [issueRequest j issueKey]) :=
  AddAttachment_not_found j env issueKey path tr resp fields hdo hcode hfields hnone

/-- C7 on the code, for an issue without attachments whose upload would be answered
by 200. -/
theorem AddAttachment_no_match_witness :
    sampleJira.AddAttachment (scriptedEnv [⟨200, "empty"⟩, ⟨200, ""⟩]) "PRJ-1"
        "/tmp/a.txt" [] =
      (.ret (some (attachmentNotFound "a.txt")), [issueRequest sampleJira "PRJ-1"]) :=
  AddAttachment_no_match sampleJira (scriptedEnv [⟨200, "empty"⟩, ⟨200, ""⟩]) "PRJ-1"
    "/tmp/a.txt" [] ⟨200, "empty"⟩ ⟨"", "", [], ""⟩ rfl (by decide) (by decide) (by simp) rfl

/-- C8 on the code: once the issue is fetched and no attachment filename folds to the
base name of the local path, `UpdateAttachment` returns the resolver's
attachment-not-found error after the issue request alone: no delete, no upload. -/
theorem UpdateAttachment_no_match (j : Jira) (env : Env) (issueKey path : String)
    (tr : Trace) (resp : Response) (fields : IssueFields)
    (hdo : env.Do tr (issueRequest j issueKey) = some resp) (hcode : resp.StatusCode ≠ 404)
    (hfields : (env.unmarshalIssue resp.Body).Fields = some fields)
    (hnone : ∀ a ∈ fields.Attachment,
      EqualFold env.foldOrbit a.Filename (Base path) = false) :
    j.UpdateAttachment env issueKey path tr =
      (.ret (some (attachmentNotFound path)), tr ++ [issueRequest j issueKey]) := by
  simp only [Jira.UpdateAttachment,
    FindAttachment_no_match j env issueKey path tr resp fields hdo hcode hfields hnone]

/-- C8 on the code, for an issue without attachments whose upload would be answered
by 200. -/
theorem UpdateAttachment_no_match_witness :
    sampleJira.UpdateAttachment (scriptedEnv [⟨200, "empty"⟩, ⟨200, ""⟩]) "PRJ-1"
        "/tmp/a.txt" [] =
      (.ret (some (attachmentNotFound "/tmp/a.txt")), [issueRequest sampleJira "PRJ-1"]) :=
  UpdateAttachment_no_match sampleJira (scriptedEnv [⟨200, "empty"⟩, ⟨200, ""⟩]) "PRJ-1"
    "/tmp/a.txt" [] ⟨200, "empty"⟩ ⟨"", "", [], ""⟩ rfl (by decide) (by decide) (by simp)

/-- C9 (as amended): when the first fetch shows a first matching attachment of
non-empty id and the delete round trip returns, `UpdateAttachment` sends the issue
request, then the delete request for that id, and continues as `AddAttachment`
from there, so the delete precedes every later request; the delete reply `del`
is not examined, the result is the one of `AddAttachment`. -/
theorem UpdateAttachment_delete_then_add (j : Jira) (env : Env) (issueKey path : String)
    (tr : Trace) (resp : Response) (fields : IssueFields) (pre : List Attachment)
    (a : Attachment) (post : List Attachment) (del : Response)
    (hdo : env.Do tr (issueRequest j issueKey) = some resp) (hcode : resp.StatusCode ≠ 404)
    (hfields : (env.unmarshalIssue resp.Body).Fields = some fields)
    (hsplit : fields.Attachment = pre ++ a :: post)
    (hpre : ∀ b ∈ pre, EqualFold env.foldOrbit b.Filename (Base path) = false)
    (ha : EqualFold env.foldOrbit a.Filename (Base path) = true) (hid : a.Id ≠ "")
    (hdel : env.Do (tr ++ [issueRequest j issueKey]) (deleteRequest j a.Id) = some del) :
    j.UpdateAttachment env issueKey path tr =
        j.AddAttachment env issueKey path
          (tr ++ [issueRequest j issueKey] ++ [deleteRequest j a.Id]) ∧
    (tr ++ [issueRequest j issueKey] ++ [deleteRequest j a.Id]) <+:
      (j.UpdateAttachment env issueKey path tr).2 := by
  have hupd : j.UpdateAttachment env issueKey path tr =
      j.AddAttachment env issueKey path
        (tr ++ [issueRequest j issueKey] ++ [deleteRequest j a.Id]) := by
    unfold deleteRequest at hdel
    simp [Jira.UpdateAttachment,
      FindAttachment_match j env issueKey path tr resp fields pre a post hdo hcode hfields
        hsplit hpre ha, hid, Jira.RemoveAttachment, Jira.buildAndExecRequest, hdel,
      deleteRequest]
  refine ⟨hupd, ?_⟩
  rw [hupd]
  exact AddAttachment_trace j env issueKey path _

/-- C9 (as amended) with a delete answered by 204 and the attachment gone afterwards:
the delete follows the issue request, and the result is the not-found error of
the `AddAttachment` that follows. -/
theorem UpdateAttachment_delete_then_add_witness :
    sampleJira.UpdateAttachment
        (scriptedEnv [⟨200, "old"⟩, ⟨204, ""⟩, ⟨200, "empty"⟩, ⟨200, ""⟩]) "PRJ-1"
        "/tmp/a.txt" [] =
      sampleJira.AddAttachment
        (scriptedEnv [⟨200, "old"⟩, ⟨204, ""⟩, ⟨200, "empty"⟩, ⟨200, ""⟩]) "PRJ-1"
        "/tmp/a.txt" [issueRequest sampleJira "PRJ-1", deleteRequest sampleJira "7"] ∧
    sampleJira.UpdateAttachment
        (scriptedEnv [⟨200, "old"⟩, ⟨204, ""⟩, ⟨200, "empty"⟩, ⟨200, ""⟩]) "PRJ-1"
        "/tmp/a.txt" [] =
      (.ret (some (attachmentNotFound "a.txt")), [issueRequest sampleJira "PRJ-1",
        deleteRequest sampleJira "7", issueRequest sampleJira "PRJ-1"]) :=
  ⟨(UpdateAttachment_delete_then_add sampleJira
    (scriptedEnv [⟨200, "old"⟩, ⟨204, ""⟩, ⟨200, "empty"⟩, ⟨200, ""⟩]) "PRJ-1" "/tmp/a.txt" []
    ⟨200, "old"⟩ ⟨"", "", [sampleAttachment "7" "a.txt"], ""⟩ []
    (sampleAttachment "7" "a.txt") [] ⟨204, ""⟩ rfl (by decide) (by decide) rfl (by simp)
    (by decide) (by decide) rfl).1, by decide⟩

/-- C9 fails as stated: the delete of the old attachment 7 is answered by 500, the
second fetch shows a matching attachment of empty id, the upload is answered by
200 and `UpdateAttachment` returns no error; and when the matching attachment
found first has an empty id, no delete is sent at all before the upload. -/
theorem UpdateAttachment_failed_delete_succeeds :
    sampleJira.UpdateAttachment
        (scriptedEnv [⟨200, "blank-id"⟩, ⟨200, "blank-id"⟩, ⟨200, ""⟩]) "PRJ-1"
        "/tmp/a.txt" [] =
      (.ret none, [issueRequest sampleJira "PRJ-1", issueRequest sampleJira "PRJ-1",
        uploadRequest sampleJira "PRJ-1" "/tmp/a.txt"]) ∧
    (scriptedEnv [⟨200, "old"⟩, ⟨500, ""⟩, ⟨200, "blank-id"⟩, ⟨200, ""⟩]).Do
        [issueRequest sampleJira "PRJ-1"] (deleteRequest sampleJira "7") = some ⟨500, ""⟩ ∧
    sampleJira.UpdateAttachment
        (scriptedEnv [⟨200, "old"⟩, ⟨500, ""⟩, ⟨200, "blank-id"⟩, ⟨200, ""⟩]) "PRJ-1"
        "/tmp/a.txt" [] =
      (.ret none, [issueRequest sampleJira "PRJ-1", deleteRequest sampleJira "7",
        issueRequest sampleJira "PRJ-1", uploadRequest sampleJira "PRJ-1" "/tmp/a.txt"]) := by
  refine ⟨by decide, rfl, by decide⟩

/-! ## Download: the properties -/

/-- C10 (as amended): once the issue is fetched with a field set (a reply other than 404
whose decoded issue has a non-nil `Fields`), `DownloadAttachment` returns the
empty path with its not-found error exactly when no attachment filename folds to
the requested filename. Otherwise, with `a` the first matching attachment in
list order: when the local file cannot be created the run ends (`log.Fatal`)
before any download request; when the file is created, the request for the
content url of `a` is sent, and the run ends (`log.Fatal` or a panic) when that
round trip or the copy fails; when both succeed it returns the working
directory, the separator and the requested filename, a path that ends in the
requested filename, having sent exactly that download request after the issue
request. -/
theorem DownloadAttachment_first_match (j : Jira) (env : Env)
    (issueId attachmentFileName : String) (tr : Trace) (resp : Response)
    (fields : IssueFields)
    (hdo : env.Do tr (issueRequest j issueId) = some resp) (hcode : resp.StatusCode ≠ 404)
    (hfields : (env.unmarshalIssue resp.Body).Fields = some fields) :
    ((j.DownloadAttachment env issueId attachmentFileName tr).1 =
        .ret ("", some downloadNotFound) ↔
      ∀ a ∈ fields.Attachment,
        EqualFold env.foldOrbit a.Filename attachmentFileName = false) ∧
    (∀ (pre : List Attachment) (a : Attachment) (post : List Attachment),
      fields.Attachment = pre ++ a :: post →
      (∀ b ∈ pre, EqualFold env.foldOrbit b.Filename attachmentFileName = false) →
      EqualFold env.foldOrbit a.Filename attachmentFileName = true →
      (env.Create attachmentFileName = false →
        j.DownloadAttachment env issueId attachmentFileName tr =
          (.crash, tr ++ [issueRequest j issueId])) ∧
      (env.Create attachmentFileName = true →
        env.Do (tr ++ [issueRequest j issueId]) (downloadRequest a.Content) = none →
        j.DownloadAttachment env issueId attachmentFileName tr =
          (.crash, tr ++ [issueRequest j issueId] ++ [downloadRequest a.Content])) ∧
      (∀ body : Response, env.Create attachmentFileName = true →
        env.Do (tr ++ [issueRequest j issueId]) (downloadRequest a.Content) = some body →
        env.Copy attachmentFileName body = false →
        j.DownloadAttachment env issueId attachmentFileName tr =
          (.crash, tr ++ [issueRequest j issueId] ++ [downloadRequest a.Content])) ∧
      (∀ body : Response, env.Create attachmentFileName = true →
        env.Do (tr ++ [issueRequest j issueId]) (downloadRequest a.Content) = some body →
        env.Copy attachmentFileName body = true →
        j.DownloadAttachment env issueId attachmentFileName tr =
            (.ret (env.Getwd.1 ++ String.singleton PathSeparator ++ attachmentFileName,
              env.Getwd.2),
             tr ++ [issueRequest j issueId] ++ [downloadRequest a.Content]) ∧
          attachmentFileName.data <:+
            (env.Getwd.1 ++ String.singleton PathSeparator ++ attachmentFileName).data)) := by
  have hpath : env.Getwd.1 ++ String.singleton PathSeparator ++ attachmentFileName ≠ "" := by
    intro h
    have := congrArg String.data h
    simp [String.data_append, String.singleton] at this
  refine ⟨⟨?_, ?_⟩, ?_⟩
  · intro h
    cases hloop : downloadLoop env.foldOrbit attachmentFileName fields.Attachment with
    | none => exact (downloadLoop_none_iff _ _ _).1 hloop
    | some a =>
      exfalso
      simp only [Jira.DownloadAttachment, Issue_fetched j env issueId tr resp hdo hcode,
        hfields, hloop] at h
      revert h
      cases j.downloadFromUrl env a.Content attachmentFileName
        (tr ++ [issueRequest j issueId]) with
      | mk out tr2 =>
        cases out with
        | crash => simp
        | ret u => simp [hpath]
  · intro hnone
    simp [Jira.DownloadAttachment, Issue_fetched j env issueId tr resp hdo hcode, hfields,
      (downloadLoop_none_iff _ _ _).2 hnone, downloadNotFound]
  · intro pre a post hsplit hpre ha
    have hloop := downloadLoop_append env.foldOrbit attachmentFileName pre a post hpre ha
    refine ⟨?_, ?_, ?_, ?_⟩
    · intro hcreate
      simp [Jira.DownloadAttachment, Issue_fetched j env issueId tr resp hdo hcode, hfields,
        hsplit, hloop, Jira.downloadFromUrl, hcreate]
    · intro hcreate hget
      unfold downloadRequest at hget
      simp [Jira.DownloadAttachment, Issue_fetched j env issueId tr resp hdo hcode, hfields,
        hsplit, hloop, Jira.downloadFromUrl, hcreate, hget, downloadRequest]
    · intro body hcreate hget hcopy
      unfold downloadRequest at hget
      simp [Jira.DownloadAttachment, Issue_fetched j env issueId tr resp hdo hcode, hfields,
        hsplit, hloop, Jira.downloadFromUrl, hcreate, hget, hcopy, downloadRequest]
    · intro body hcreate hget hcopy
      refine ⟨?_, ?_⟩
      · unfold downloadRequest at hget
        simp [Jira.DownloadAttachment, Issue_fetched j env issueId tr resp hdo hcode, hfields,
          hsplit, hloop, Jira.downloadFromUrl, hcreate, hget, hcopy, downloadRequest]
      · simp only [String.data_append]
        exact List.suffix_append _ _

/-- C10 (as amended) on the issue holding `Report.PDF` and `notes.txt`: the download
succeeds in the scripted environment, and ends before the download request
where the local file cannot be created. -/
theorem DownloadAttachment_first_match_witness :
    sampleJira.DownloadAttachment (scriptedEnv [⟨200, "two"⟩, ⟨200, "%PDF"⟩]) "PRJ-1"
        "report.pdf" [] =
      (.ret ("/home/user/report.pdf", none), [issueRequest sampleJira "PRJ-1",
        downloadRequest "https://jira.example.org/secure/attachment/10001"]) ∧
    sampleJira.DownloadAttachment (readOnlyEnv [⟨200, "two"⟩, ⟨200, "%PDF"⟩]) "PRJ-1"
        "report.pdf" [] =
      (.crash, [issueRequest sampleJira "PRJ-1"]) :=
  ⟨(((DownloadAttachment_first_match sampleJira (scriptedEnv [⟨200, "two"⟩, ⟨200, "%PDF"⟩])
    "PRJ-1" "report.pdf" [] ⟨200, "two"⟩ ⟨"", "", [sampleAttachment "10001" "Report.PDF",
      sampleAttachment "10002" "notes.txt"], ""⟩ rfl (by decide) (by decide)).2 []
    (sampleAttachment "10001" "Report.PDF") [sampleAttachment "10002" "notes.txt"]
    rfl (by simp) (by decide)).2.2.2 ⟨200, "%PDF"⟩ rfl rfl rfl).1,
   ((DownloadAttachment_first_match sampleJira (readOnlyEnv [⟨200, "two"⟩, ⟨200, "%PDF"⟩])
    "PRJ-1" "report.pdf" [] ⟨200, "two"⟩ ⟨"", "", [sampleAttachment "10001" "Report.PDF",
      sampleAttachment "10002" "notes.txt"], ""⟩ rfl (by decide) (by decide)).2 []
    (sampleAttachment "10001" "Report.PDF") [sampleAttachment "10002" "notes.txt"]
    rfl (by simp) (by decide)).1 rfl⟩

/-- C10 fails as stated: `Report.PDF` matches the requested `report.pdf`, the local file
cannot be created, and `DownloadAttachment` ends in `log.Fatal` after the issue
request: no download request is sent and no path is returned. And on a 200
reply whose body decodes to an issue without field set, no attachment matches
and `DownloadAttachment` panics on the nil `Fields` instead of returning its
not-found error. -/
theorem DownloadAttachment_create_fails :
    EqualFold (readOnlyEnv []).foldOrbit (sampleAttachment "10001" "Report.PDF").Filename
      "report.pdf" = true ∧
    sampleJira.DownloadAttachment (readOnlyEnv [⟨200, "two"⟩, ⟨200, "%PDF"⟩]) "PRJ-1"
        "report.pdf" [] =
      (.crash, [issueRequest sampleJira "PRJ-1"]) ∧
    sampleJira.Issue (scriptedEnv [⟨200, "{}"⟩]) "PRJ-1" [] =
      (.ret (Issue.zero, none), [issueRequest sampleJira "PRJ-1"]) ∧
    sampleJira.DownloadAttachment (scriptedEnv [⟨200, "{}"⟩]) "PRJ-1" "report.pdf" [] =
      (.crash, [issueRequest sampleJira "PRJ-1"]) := by
  refine ⟨by decide, by decide, by decide, by decide⟩

/-! ## Lemmas on the rounding of quotients -/

theorem log2Fuel_spec (fuel n : Nat) (hn : 0 < n) (hf : n ≤ fuel) :
    2 ^ log2Fuel fuel n ≤ n ∧ n < 2 ^ (log2Fuel fuel n + 1) := by
  induction fuel generalizing n with
  | zero => omega
  | succ fuel ih =>
    unfold log2Fuel
    by_cases h2 : n < 2
    · simp only [h2, if_true]
      have : n = 1 := by omega
      subst this
      simp
    · simp only [h2, if_false]
      have ih2 := ih (n / 2) (by omega) (by omega)
      have e1 : 2 ^ (log2Fuel fuel (n / 2) + 1) = 2 * 2 ^ log2Fuel fuel (n / 2) := by
        rw [pow_succ]; ring
      have e2 : 2 ^ (log2Fuel fuel (n / 2) + 1 + 1) = 2 * 2 ^ (log2Fuel fuel (n / 2) + 1) := by
        rw [pow_succ _ (log2Fuel fuel (n / 2) + 1)]; ring
      rw [e2]
      rw [e1] at ih2 ⊢
      omega

theorem ilog2_spec (n : Nat) (hn : 0 < n) : 2 ^ ilog2 n ≤ n ∧ n < 2 ^ (ilog2 n + 1) :=
  log2Fuel_spec n n hn le_rfl

/-- The shift chosen by `roundPos` leaves a quotient of exactly 53 bits. -/
theorem norm_core (n d up k : Nat) (hn : 0 < n) (hd : 0 < d) (hup : up = ilog2 d + 54)
    (hk : k = ilog2 (n * 2 ^ up / d) - 52) :
    2 ^ 52 ≤ n * 2 ^ up / (d * 2 ^ k) ∧ n * 2 ^ up / (d * 2 ^ k) < 2 ^ 53 := by
  obtain ⟨_, hd2⟩ := ilog2_spec d hd
  have hNd : 2 ^ 53 ≤ n * 2 ^ up / d := by
    rw [Nat.le_div_iff_mul_le hd]
    have h1 : 2 ^ up = 2 ^ 53 * 2 ^ (ilog2 d + 1) := by
      rw [hup, ← pow_add]; congr 1; omega
    have h2 : 2 ^ 53 * d ≤ 2 ^ 53 * 2 ^ (ilog2 d + 1) := Nat.mul_le_mul_left _ hd2.le
    have h3 : 2 ^ up ≤ n * 2 ^ up := Nat.le_mul_of_pos_left _ hn
    omega
  have hpos : 0 < n * 2 ^ up / d := lt_of_lt_of_le (Nat.pow_pos (by norm_num)) hNd
  obtain ⟨ht1, ht2⟩ := ilog2_spec (n * 2 ^ up / d) hpos
  have ht : 53 ≤ ilog2 (n * 2 ^ up / d) := by
    by_contra hlt
    have h4 : ilog2 (n * 2 ^ up / d) + 1 ≤ 53 := by omega
    have h5 := Nat.pow_le_pow_right (show 0 < 2 by norm_num) h4
    omega
  have hkt : ilog2 (n * 2 ^ up / d) = k + 52 := by omega
  have hkpos : 0 < 2 ^ k := Nat.pow_pos (by norm_num)
  constructor
  · rw [← Nat.div_div_eq_div_mul, Nat.le_div_iff_mul_le hkpos]
    have : 2 ^ 52 * 2 ^ k = 2 ^ ilog2 (n * 2 ^ up / d) := by
      rw [hkt, ← pow_add]; congr 1; omega
    omega
  · rw [← Nat.div_div_eq_div_mul, Nat.div_lt_iff_lt_mul hkpos]
    have : 2 ^ (ilog2 (n * 2 ^ up / d) + 1) = 2 ^ 53 * 2 ^ k := by
      rw [hkt, ← pow_add]; congr 1; omega
    omega

/-- Rounding the quotient `N / den` to the nearest integer, ties to even. -/
theorem round_core (N den m : Nat) (hden : 0 < den)
    (hm : m = if den < 2 * (N % den) ∨ (2 * (N % den) = den ∧ N / den % 2 = 1)
      then N / den + 1 else N / den) :
    |(m : ℚ) - (N : ℚ) / (den : ℚ)| ≤ 1 / 2 ∧
    (∀ t : Nat, (N : ℚ) / (den : ℚ) = (t : ℚ) → m = t) ∧ N / den ≤ m := by
  have hqr : N = den * (N / den) + N % den := (Nat.div_add_mod N den).symm
  have hrlt : N % den < den := Nat.mod_lt _ hden
  generalize N / den = q at hm hqr
  generalize N % den = r at hm hqr hrlt
  have hdq : (0 : ℚ) < den := by exact_mod_cast hden
  have hX : (N : ℚ) / (den : ℚ) = (q : ℚ) + (r : ℚ) / (den : ℚ) := by
    have h1 : (N : ℚ) = den * q + r := by exact_mod_cast hqr
    rw [h1]; field_simp; ring
  have hfrac1 : (r : ℚ) / den < 1 := by
    rw [div_lt_one hdq]; exact_mod_cast hrlt
  refine ⟨?_, ?_, ?_⟩
  · rw [hX, hm]
    split_ifs with hc
    · have h2r : (den : ℚ) ≤ 2 * r := by
        rcases hc with h | ⟨h, _⟩
        · exact_mod_cast h.le
        · exact_mod_cast h.ge
      have : (1 : ℚ) / 2 ≤ r / den := by
        rw [le_div_iff₀ hdq]; linarith
      push_cast
      rw [abs_le]; constructor <;> linarith
    · have h2r : (2 : ℚ) * r ≤ den := by
        have : ¬ den < 2 * r := fun h => hc (Or.inl h)
        exact_mod_cast not_lt.1 this
      have h3 : (r : ℚ) / den ≤ 1 / 2 := by
        rw [div_le_iff₀ hdq]; linarith
      have h4 : (0 : ℚ) ≤ (r : ℚ) / den := by positivity
      rw [abs_le]; constructor <;> linarith
  · intro t htX
    rw [hX] at htX
    have hr0 : r = 0 := by
      by_contra hne
      have hrpos : (0 : ℚ) < (r : ℚ) / den := by
        have : (0 : ℚ) < r := by exact_mod_cast Nat.pos_of_ne_zero hne
        positivity
      have h1 : (q : ℚ) < t := by linarith
      have h2 : (t : ℚ) < q + 1 := by linarith
      have h1' : q < t := by exact_mod_cast h1
      have h2' : t < q + 1 := by exact_mod_cast h2
      omega
    rw [hr0] at htX
    simp only [Nat.cast_zero, zero_div, add_zero] at htX
    have hqt : q = t := by exact_mod_cast htX
    rw [hm, hr0]
    have : ¬ (den < 2 * 0 ∨ (2 * 0 = den ∧ q % 2 = 1)) := by omega
    rw [if_neg this]
    exact hqt
  · rw [hm]
    split_ifs <;> omega

theorem roundPos_spec (n d : Nat) (hn : 0 < n) (hd : 0 < d) :
    (2 : ℚ) ^ 52 ≤ scaled n d ∧ scaled n d < 2 ^ 53 ∧
    |((roundPos n d).1 : ℚ) - scaled n d| ≤ 1 / 2 ∧
    (∀ t : Nat, scaled n d = (t : ℚ) → (roundPos n d).1 = t) ∧
    2 ^ 52 ≤ (roundPos n d).1 := by
  obtain ⟨up, hup⟩ : ∃ up, up = ilog2 d + 54 := ⟨_, rfl⟩
  obtain ⟨k, hk⟩ : ∃ k, k = ilog2 (n * 2 ^ up / d) - 52 := ⟨_, rfl⟩
  obtain ⟨m, hm⟩ : ∃ m, m = if d * 2 ^ k < 2 * (n * 2 ^ up % (d * 2 ^ k)) ∨
      (2 * (n * 2 ^ up % (d * 2 ^ k)) = d * 2 ^ k ∧ n * 2 ^ up / (d * 2 ^ k) % 2 = 1)
      then n * 2 ^ up / (d * 2 ^ k) + 1 else n * 2 ^ up / (d * 2 ^ k) := ⟨_, rfl⟩
  have hrp : roundPos n d = (m, (k : Int) - (up : Int)) := by
    rw [hm, hk, hup]; rfl
  have hden : 0 < d * 2 ^ k := Nat.mul_pos hd (Nat.pow_pos (by norm_num))
  obtain ⟨hq1, hq2⟩ := norm_core n d up k hn hd hup hk
  obtain ⟨hr1, hr2, hr3⟩ := round_core (n * 2 ^ up) (d * 2 ^ k) m hden hm
  have hX : scaled n d = ((n * 2 ^ up : Nat) : ℚ) / ((d * 2 ^ k : Nat) : ℚ) := by
    have hdd : (d : ℚ) ≠ 0 := by exact_mod_cast hd.ne'
    have h2 : (2 : ℚ) ^ (-((k : Int) - (up : Int))) = 2 ^ up / 2 ^ k := by
      rw [neg_sub, zpow_sub₀ (by norm_num)]; simp
    unfold scaled
    rw [hrp]
    simp only
    rw [h2]
    push_cast
    field_simp
  have hdq : (0 : ℚ) < ((d * 2 ^ k : Nat) : ℚ) := by exact_mod_cast hden
  have hfl1 : ((n * 2 ^ up / (d * 2 ^ k) : Nat) : ℚ) ≤
      ((n * 2 ^ up : Nat) : ℚ) / ((d * 2 ^ k : Nat) : ℚ) := Nat.cast_div_le
  have hfl2 : ((n * 2 ^ up : Nat) : ℚ) / ((d * 2 ^ k : Nat) : ℚ) <
      ((n * 2 ^ up / (d * 2 ^ k) : Nat) : ℚ) + 1 := by
    rw [div_lt_iff₀ hdq]
    have := Nat.lt_div_mul_add hden (a := n * 2 ^ up)
    have h3 : n * 2 ^ up < (n * 2 ^ up / (d * 2 ^ k) + 1) * (d * 2 ^ k) := by
      rw [add_mul, one_mul]; exact this
    exact_mod_cast h3
  have hq1' : (2 : ℚ) ^ 52 ≤ ((n * 2 ^ up / (d * 2 ^ k) : Nat) : ℚ) := by exact_mod_cast hq1
  have hq2' : ((n * 2 ^ up / (d * 2 ^ k) : Nat) : ℚ) + 1 ≤ 2 ^ 53 := by exact_mod_cast hq2
  rw [hX, hrp]
  exact ⟨by linarith, by linarith, hr1, hr2, le_trans hq1 hr3⟩

/-- The ceiling survives the rounding of a quotient whose numerator has at most 53 bits. -/
theorem ceil_round (a b m : Nat) (z : Int) (X : ℚ) (ha2 : a ≤ 2 ^ 53)
    (hb : 0 < b) (hX : X = (a : ℚ) / (b : ℚ) * (2 : ℚ) ^ (-z)) (h52 : (2 : ℚ) ^ 52 ≤ X)
    (habs : |(m : ℚ) - X| ≤ 1 / 2) (hex : ∀ t : Nat, X = (t : ℚ) → m = t) :
    ⌈(m : ℚ) * (2 : ℚ) ^ z⌉ = ⌈(a : ℚ) / (b : ℚ)⌉ := by
  have hbq : (0 : ℚ) < b := by exact_mod_cast hb
  have haq : (a : ℚ) ≤ 2 ^ 53 := by exact_mod_cast ha2
  have hb1 : (1 : ℚ) ≤ b := by exact_mod_cast hb
  obtain ⟨hm1, hm2⟩ := abs_le.1 habs
  have hc1 : ((⌈(a : ℚ) / (b : ℚ)⌉ : Int) : ℚ) - 1 < (a : ℚ) / (b : ℚ) := by
    have := Int.ceil_lt_add_one ((a : ℚ) / (b : ℚ)); linarith
  have hc2 : (a : ℚ) / (b : ℚ) ≤ ((⌈(a : ℚ) / (b : ℚ)⌉ : Int) : ℚ) := Int.le_ceil _
  generalize ⌈(a : ℚ) / (b : ℚ)⌉ = c at hc1 hc2 ⊢
  rw [Int.ceil_eq_iff]
  have hxle : (a : ℚ) / (b : ℚ) ≤ 2 ^ 53 := by
    rw [div_le_iff₀ hbq]
    have h1 : (2 : ℚ) ^ 53 * 1 ≤ 2 ^ 53 * b := mul_le_mul_of_nonneg_left hb1 (by positivity)
    linarith
  rcases le_or_lt z 0 with hz | hz
  · -- the unit in the last place is at most one
    obtain ⟨w, hw⟩ : ∃ w : Nat, z = -(w : Int) := ⟨(-z).toNat, by omega⟩
    subst hw
    have hU : (0 : ℚ) < (2 : ℚ) ^ w := by positivity
    simp only [neg_neg, zpow_natCast, zpow_neg] at hX ⊢
    generalize hUdef : (2 : ℚ) ^ w = U at hX hU ⊢
    have hUint : U = (((2 : Int) ^ w : Int) : ℚ) := by rw [← hUdef]; push_cast; rfl
    have hXb : X * b = a * U := by rw [hX]; field_simp
    -- integer bounds from the ceiling
    have hcb1 : ((c : ℚ) - 1) * b + 1 ≤ a := by
      have h1 : ((c : ℚ) - 1) * b < a := by rwa [lt_div_iff₀ hbq] at hc1
      have h2 : (c - 1) * (b : Int) < (a : Int) := by exact_mod_cast h1
      have h3 : (c - 1) * (b : Int) + 1 ≤ (a : Int) := by omega
      exact_mod_cast h3
    have hcb2 : (a : ℚ) ≤ c * b := by rwa [div_le_iff₀ hbq] at hc2
    have hb2U : (b : ℚ) ≤ 2 * U := by
      have h1 : (2 : ℚ) ^ 52 * b ≤ X * b := mul_le_mul_of_nonneg_right h52 hbq.le
      have h2 : (a : ℚ) * U ≤ 2 ^ 53 * U := mul_le_mul_of_nonneg_right haq hU.le
      linarith
    have hXlow : ((c : ℚ) - 1) * U + 1 / 2 ≤ X := by
      have h1 : (((c : ℚ) - 1) * U + 1 / 2) * b ≤ X * b := by
        have h3 : (((c : ℚ) - 1) * b + 1) * U ≤ a * U :=
          mul_le_mul_of_nonneg_right hcb1 hU.le
        rw [hXb]; linarith
      exact le_of_mul_le_mul_right h1 hbq
    have hXup : X ≤ c * U := by
      have h1 : X * b ≤ c * U * b := by
        have h3 : (a : ℚ) * U ≤ c * b * U := mul_le_mul_of_nonneg_right hcb2 hU.le
        rw [hXb]; linarith
      exact le_of_mul_le_mul_right h1 hbq
    -- the mantissa is an integer between the two bounds
    have hmlow : ((c : ℚ) - 1) * U ≤ m := by linarith
    have hmup : (m : ℚ) ≤ c * U := by
      have h1 : (m : ℚ) < c * U + 1 := by linarith
      rw [hUint] at h1
      have h2 : (m : Int) < c * 2 ^ w + 1 := by exact_mod_cast h1
      have h3 : (m : Int) ≤ c * 2 ^ w := by omega
      rw [hUint]; exact_mod_cast h3
    have hmne : (m : ℚ) ≠ ((c : ℚ) - 1) * U := by
      intro heq
      have hXm : X = m + 1 / 2 := by linarith
      have hbU : (b : ℚ) = 2 * U := by
        have h1 : (a : ℚ) * U = (((c : ℚ) - 1) * U + 1 / 2) * b := by
          rw [← hXb, hXm, heq]
        have h3 : (((c : ℚ) - 1) * b + 1) * U ≤ a * U :=
          mul_le_mul_of_nonneg_right hcb1 hU.le
        have h2 : U ≤ b / 2 := by linarith
        linarith
      have haX : (a : ℚ) = 2 * X := by
        have h1 : (a : ℚ) * U = (2 * X) * U := by rw [← hXb, hbU]; ring
        exact mul_right_cancel₀ hU.ne' h1
      have hX52 : X = ((2 ^ 52 : Nat) : ℚ) := by
        push_cast; linarith
      have := hex _ hX52
      rw [this] at hXm
      rw [hX52] at hXm
      linarith
    have hmlt : ((c : ℚ) - 1) * U < m := lt_of_le_of_ne hmlow (Ne.symm hmne)
    constructor
    · rw [lt_mul_inv_iff₀ hU]; exact hmlt
    · rw [mul_inv_le_iff₀ hU]; exact hmup
  · -- the unit in the last place is at least two: the quotient is 2^53
    obtain ⟨w, hw⟩ : ∃ w : Nat, z = (w : Int) + 1 := ⟨(z - 1).toNat, by omega⟩
    subst hw
    have hU : (1 : ℚ) ≤ (2 : ℚ) ^ w := one_le_pow₀ (by norm_num)
    have hz2 : (2 : ℚ) ^ ((w : Int) + 1) = 2 ^ w * 2 := by
      rw [zpow_add_one₀ (by norm_num), zpow_natCast]
    rw [zpow_neg, hz2] at hX
    rw [hz2]
    generalize (2 : ℚ) ^ w = U at hX hU ⊢
    have hUpos : (0 : ℚ) < U := by linarith
    have hXU : X * (U * 2) = (a : ℚ) / b := by rw [hX]; field_simp; ring
    have hXle : X ≤ 2 ^ 52 := by
      have h1 : X * 2 ≤ X * (U * 2) := by
        have := mul_le_mul_of_nonneg_left hU (le_trans (by positivity) h52 : (0 : ℚ) ≤ X)
        linarith
      linarith
    have hX52 : X = ((2 ^ 52 : Nat) : ℚ) := by push_cast; linarith
    have hmX : (m : ℚ) = X := by rw [hex _ hX52, hX52]
    rw [hmX, hXU]
    exact ⟨hc1, hc2⟩

/-- Integer ceiling division computes the rational ceiling. -/
theorem ceil_nat_div (m d : Nat) (hd : 0 < d) :
    ⌈(m : ℚ) / (d : ℚ)⌉ = (((m + d - 1) / d : Nat) : Int) := by
  have hdq : (0 : ℚ) < d := by exact_mod_cast hd
  have h1 : (m + d - 1) / d * d ≤ m + d - 1 := Nat.div_mul_le_self _ _
  have h2 : m + d - 1 < ((m + d - 1) / d + 1) * d := by
    rw [add_mul, one_mul]; exact Nat.lt_div_mul_add hd
  generalize (m + d - 1) / d = q at h1 h2
  rw [Int.ceil_eq_iff]
  constructor
  · rw [lt_div_iff₀ hdq]
    have h3 : ((q : Int) - 1) * d < m := by
      have : (q : Int) * d ≤ m + d - 1 := by
        have : ((q * d : Nat) : Int) ≤ ((m + d - 1 : Nat) : Int) := by exact_mod_cast h1
        rw [Nat.cast_sub (by omega)] at this
        push_cast at this
        exact this
      linarith
    exact_mod_cast h3
  · rw [div_le_iff₀ hdq]
    have h3 : m ≤ q * d := by
      rw [add_mul, one_mul] at h2; omega
    exact_mod_cast h3

/-- On a non-negative finite value, `int(math.Ceil(x))` is the ceiling of its value. -/
theorem toInt_Ceil_pos (impl : Impl) (m : Nat) (z : Int)
    (h : ⌈(m : ℚ) * (2 : ℚ) ^ z⌉ < 2 ^ 63) :
    F64.toInt impl (F64.Ceil (.fin false m z)) = ⌈(m : ℚ) * (2 : ℚ) ^ z⌉ := by
  rcases le_or_lt 0 z with hz | hz
  · obtain ⟨w, hw⟩ : ∃ w : Nat, z = (w : Int) := ⟨z.toNat, by omega⟩
    subst hw
    have hval : (m : ℚ) * (2 : ℚ) ^ (w : Int) = ((m * 2 ^ w : Nat) : ℚ) := by
      rw [zpow_natCast]; push_cast; rfl
    rw [hval, Int.ceil_natCast] at h ⊢
    have hz' : (0 : Int) ≤ (w : Int) := hz
    simp only [F64.Ceil, hz', if_true, F64.toInt, Int.toNat_ofNat, Bool.false_eq_true, if_false]
    rw [if_pos]
    exact ⟨le_trans (by norm_num) (Int.natCast_nonneg _), h⟩
  · obtain ⟨w, hw⟩ : ∃ w : Nat, z = -(w : Int) := ⟨(-z).toNat, by omega⟩
    subst hw
    have hval : (m : ℚ) * (2 : ℚ) ^ (-(w : Int)) = (m : ℚ) / ((2 ^ w : Nat) : ℚ) := by
      rw [zpow_neg, zpow_natCast]; push_cast; rfl
    have hd : 0 < 2 ^ w := Nat.pow_pos (by norm_num)
    rw [hval, ceil_nat_div m (2 ^ w) hd] at h ⊢
    have hz' : ¬ (0 : Int) ≤ -(w : Int) := by omega
    simp only [F64.Ceil, hz', if_false, F64.toInt, neg_neg, Int.toNat_ofNat,
      Bool.false_eq_true, le_refl, if_true, Int.toNat_zero, pow_zero, mul_one]
    rw [if_pos]
    exact ⟨le_trans (by norm_num) (Int.natCast_nonneg _), h⟩

/-- The conversion of an `int` of at most 53 bits is exact. -/
theorem roundPos_exact (a : Nat) (ha1 : 0 < a) (ha2 : a ≤ 2 ^ 53) :
    ((roundPos a 1).1 : ℚ) * (2 : ℚ) ^ (roundPos a 1).2 = (a : ℚ) := by
  obtain ⟨h52, _, _, hex, _⟩ := roundPos_spec a 1 ha1 Nat.one_pos
  have hX : scaled a 1 = (a : ℚ) * (2 : ℚ) ^ (-(roundPos a 1).2) := by
    unfold scaled; simp
  generalize (roundPos a 1).1 = m at hex ⊢
  generalize (roundPos a 1).2 = z at hX ⊢
  generalize scaled a 1 = X at h52 hex hX
  have haq : (a : ℚ) ≤ 2 ^ 53 := by exact_mod_cast ha2
  have hmX : (m : ℚ) = X := by
    rcases le_or_lt z 0 with hz | hz
    · obtain ⟨w, hw⟩ : ∃ w : Nat, z = -(w : Int) := ⟨(-z).toNat, by omega⟩
      subst hw
      have hXn : X = ((a * 2 ^ w : Nat) : ℚ) := by
        rw [hX, neg_neg, zpow_natCast]; push_cast; rfl
      rw [hex _ hXn, hXn]
    · obtain ⟨w, hw⟩ : ∃ w : Nat, z = (w : Int) + 1 := ⟨(z - 1).toNat, by omega⟩
      subst hw
      have hU : (1 : ℚ) ≤ (2 : ℚ) ^ w := one_le_pow₀ (by norm_num)
      have hz2 : (2 : ℚ) ^ ((w : Int) + 1) = 2 ^ w * 2 := by
        rw [zpow_add_one₀ (by norm_num), zpow_natCast]
      rw [zpow_neg, hz2] at hX
      generalize (2 : ℚ) ^ w = U at hX hU
      have hUpos : (0 : ℚ) < U := by linarith
      have hXU : X * (U * 2) = (a : ℚ) := by rw [hX]; field_simp
      have hXle : X ≤ 2 ^ 52 := by
        have h1 : X * 2 ≤ X * (U * 2) := by
          have := mul_le_mul_of_nonneg_left hU (le_trans (by positivity) h52 : (0 : ℚ) ≤ X)
          linarith
        linarith
      have hX52 : X = ((2 ^ 52 : Nat) : ℚ) := by push_cast; linarith
      rw [hex _ hX52, hX52]
  rw [hmX, hX, mul_assoc, ← zpow_add₀ (by norm_num : (2 : ℚ) ≠ 0)]
  simp

/-- The conversion of a positive `int` is a positive integer, the same one up to
2^53 and at least 2^53 beyond. -/
theorem roundPos_int (b : Nat) (hb : 0 < b) :
    ∃ b2 : Nat, ((roundPos b 1).1 : ℚ) * (2 : ℚ) ^ (roundPos b 1).2 = (b2 : ℚ) ∧
      (b ≤ 2 ^ 53 → b2 = b) ∧ (2 ^ 53 < b → 2 ^ 53 ≤ b2) := by
  rcases le_or_lt b (2 ^ 53) with hle | hlt
  · exact ⟨b, roundPos_exact b hb hle, fun _ => rfl, fun h => absurd h (by omega)⟩
  · obtain ⟨_, h53, _, _, hm⟩ := roundPos_spec b 1 hb Nat.one_pos
    have hX : scaled b 1 = (b : ℚ) * (2 : ℚ) ^ (-(roundPos b 1).2) := by
      unfold scaled; simp
    generalize (roundPos b 1).1 = m at hm ⊢
    generalize (roundPos b 1).2 = z at hX ⊢
    rw [hX] at h53
    have hbq : (2 : ℚ) ^ 53 < b := by exact_mod_cast hlt
    have hz : 0 < z := by
      by_contra hz
      obtain ⟨w, hw⟩ : ∃ w : Nat, z = -(w : Int) := ⟨(-z).toNat, by omega⟩
      subst hw
      rw [neg_neg, zpow_natCast] at h53
      have hU : (1 : ℚ) ≤ (2 : ℚ) ^ w := one_le_pow₀ (by norm_num)
      have : (b : ℚ) * 1 ≤ b * 2 ^ w :=
        mul_le_mul_of_nonneg_left hU (by positivity)
      linarith
    obtain ⟨w, hw⟩ : ∃ w : Nat, z = (w : Int) + 1 := ⟨(z - 1).toNat, by omega⟩
    subst hw
    refine ⟨m * 2 ^ (w + 1), ?_, fun h => absurd h (by omega), fun _ => ?_⟩
    · have : ((w : Int) + 1) = ((w + 1 : Nat) : Int) := by push_cast; rfl
      rw [this, zpow_natCast]; push_cast; rfl
    · have h1 : 2 ^ 52 * 2 ^ 1 ≤ m * 2 ^ (w + 1) :=
        Nat.mul_le_mul hm (Nat.pow_le_pow_right (by norm_num) (by omega))
      omega

/-- A positive quotient of at most one has ceiling one. -/
theorem ceil_div_eq_one (a c : Nat) (ha0 : 0 < a) (hc : a ≤ c) :
    ⌈(a : ℚ) / (c : ℚ)⌉ = 1 := by
  have hcq : (0 : ℚ) < c := by exact_mod_cast lt_of_lt_of_le ha0 hc
  have haq : (0 : ℚ) < a := by exact_mod_cast ha0
  rw [Int.ceil_eq_iff]
  constructor
  · simp only [Int.cast_one, sub_self]; exact div_pos haq hcq
  · rw [Int.cast_one, div_le_one hcq]; exact_mod_cast hc

/-- The ceiling of a quotient with a numerator of at most 53 bits fits `int`. -/
theorem ceil_div_bound (a b : Nat) (hb0 : 0 < b) (ha : a ≤ 2 ^ 53) :
    ⌈(a : ℚ) / (b : ℚ)⌉ < 2 ^ 63 := by
  have h1 : (a : ℚ) / (b : ℚ) ≤ ((2 ^ 53 : Int) : ℚ) := by
    have hbq : (0 : ℚ) < b := by exact_mod_cast hb0
    have hb1 : (1 : ℚ) ≤ b := by exact_mod_cast hb0
    have haq : (a : ℚ) ≤ 2 ^ 53 := by exact_mod_cast ha
    rw [div_le_iff₀ hbq]
    have h3 : (2 : ℚ) ^ 53 * 1 ≤ 2 ^ 53 * b :=
      mul_le_mul_of_nonneg_left hb1 (by positivity)
    push_cast
    linarith
  have h2 := Int.ceil_le.2 h1
  have h3 : (2 : Int) ^ 53 < 2 ^ 63 := by norm_num
  exact lt_of_le_of_lt h2 h3

/-- The scaled quotient of two mantissas in terms of the values they stand for. -/
theorem scaled_of_values (mA mB : Nat) (eA eB : Int) (va vb : ℚ) (hmB0 : mB ≠ 0)
    (hvA : (mA : ℚ) * (2 : ℚ) ^ eA = va) (hvB : (mB : ℚ) * (2 : ℚ) ^ eB = vb) :
    scaled mA mB = va / vb * (2 : ℚ) ^ (-((roundPos mA mB).2 + eA - eB)) := by
  unfold scaled
  rw [← hvA, ← hvB]
  generalize (roundPos mA mB).2 = eR
  have h2 : (2 : ℚ) ≠ 0 := by norm_num
  have hmBq : (mB : ℚ) ≠ 0 := by exact_mod_cast hmB0
  rw [neg_sub, zpow_sub₀ h2, zpow_add₀ h2, zpow_neg]
  have hp1 : (2 : ℚ) ^ eA ≠ 0 := zpow_ne_zero _ h2
  have hp2 : (2 : ℚ) ^ eB ≠ 0 := zpow_ne_zero _ h2
  have hp3 : (2 : ℚ) ^ eR ≠ 0 := zpow_ne_zero _ h2
  generalize (2 : ℚ) ^ eA = pA at hp1 ⊢
  generalize (2 : ℚ) ^ eB = pB at hp2 ⊢
  generalize (2 : ℚ) ^ eR = pR at hp3 ⊢
  field_simp
  ring

/-- The ceiling of the rounded quotient of two converted positive integers of equal
sign, the numerator of at most 53 bits, is the exact ceiling. -/
theorem div_fin_ceil (impl : Impl) (a b : Nat) (s : Bool) (ha0 : 0 < a) (hb0 : 0 < b)
    (ha : a ≤ 2 ^ 53) :
    F64.toInt impl (F64.Ceil (F64.div (.fin s (roundPos a 1).1 (roundPos a 1).2)
      (.fin s (roundPos b 1).1 (roundPos b 1).2))) = ⌈(a : ℚ) / (b : ℚ)⌉ := by
  obtain ⟨_, _, _, _, hmA⟩ := roundPos_spec a 1 ha0 Nat.one_pos
  obtain ⟨_, _, _, _, hmB⟩ := roundPos_spec b 1 hb0 Nat.one_pos
  have hvA := roundPos_exact a ha0 ha
  obtain ⟨b2, hvB, hb2a, hb2b⟩ := roundPos_int b hb0
  generalize (roundPos a 1).1 = mA at hmA hvA
  generalize (roundPos a 1).2 = eA at hvA
  generalize (roundPos b 1).1 = mB at hmB hvB
  generalize (roundPos b 1).2 = eB at hvB
  have hpow : 0 < 2 ^ 52 := Nat.pow_pos (by norm_num)
  have hmA0 : mA ≠ 0 := Nat.pos_iff_ne_zero.1 (lt_of_lt_of_le hpow hmA)
  have hmB0 : mB ≠ 0 := Nat.pos_iff_ne_zero.1 (lt_of_lt_of_le hpow hmB)
  have hb2pos : 0 < b2 := by
    rcases le_or_lt b (2 ^ 53) with h | h
    · rw [hb2a h]; exact hb0
    · exact lt_of_lt_of_le (Nat.pow_pos (by norm_num)) (hb2b h)
  obtain ⟨h52, _, habs, hex, _⟩ :=
    roundPos_spec mA mB (Nat.pos_of_ne_zero hmA0) (Nat.pos_of_ne_zero hmB0)
  have hdiv : F64.div (.fin s mA eA) (.fin s mB eB) =
      .fin false (roundPos mA mB).1 ((roundPos mA mB).2 + eA - eB) := by
    simp [F64.div, hmA0, hmB0]
  have hX := scaled_of_values mA mB eA eB a b2 hmB0 hvA hvB
  have hceil := ceil_round a b2 (roundPos mA mB).1 ((roundPos mA mB).2 + eA - eB)
    (scaled mA mB) ha hb2pos hX h52 habs hex
  have hsame : ⌈(a : ℚ) / (b2 : ℚ)⌉ = ⌈(a : ℚ) / (b : ℚ)⌉ := by
    rcases le_or_lt b (2 ^ 53) with h | h
    · rw [hb2a h]
    · rw [ceil_div_eq_one a b2 ha0 (le_trans ha (hb2b h)),
        ceil_div_eq_one a b ha0 (le_trans ha h.le)]
  have hbound := ceil_div_bound a b hb0 ha
  rw [hdiv, toInt_Ceil_pos impl _ _ (by rw [hceil, hsame]; exact hbound), hceil, hsame]

/-- The conversion of a non-zero `int`. -/
theorem ofInt_ne_zero (i : Int) (hi : i ≠ 0) :
    F64.ofInt i = .fin (decide (i < 0)) (roundPos i.natAbs 1).1 (roundPos i.natAbs 1).2 := by
  simp [F64.ofInt, hi]

/-- The derived field of `Compute` for a quotient of non-negative value: the ceiling of
the exact quotient, for a numerator of at most 53 bits. -/
theorem ceil_quotient (impl : Impl) (i j : Int) (hj : j ≠ 0) (ha : i.natAbs ≤ 2 ^ 53)
    (hs : (0 ≤ i ∧ 0 < j) ∨ (i ≤ 0 ∧ j < 0)) :
    F64.toInt impl (F64.Ceil (F64.div (F64.ofInt i) (F64.ofInt j))) =
      ⌈(i : ℚ) / (j : ℚ)⌉ := by
  by_cases hi : i = 0
  · subst hi
    obtain ⟨_, _, _, _, hmB⟩ := roundPos_spec j.natAbs 1 (Int.natAbs_pos.2 hj) Nat.one_pos
    have hmB0 : (roundPos j.natAbs 1).1 ≠ 0 := by omega
    rw [ofInt_ne_zero j hj]
    simp [F64.ofInt, F64.div, hmB0, F64.Ceil, F64.toInt]
  · have hsign : decide (i < 0) = decide (j < 0) := by
      rcases hs with ⟨h1, h2⟩ | ⟨h1, h2⟩
      · simp [not_lt.2 h1, not_lt.2 h2.le]
      · have : i < 0 := lt_of_le_of_ne h1 hi
        simp [this, h2]
    have hq : (i : ℚ) / (j : ℚ) = (i.natAbs : ℚ) / (j.natAbs : ℚ) := by
      rcases hs with ⟨h1, h2⟩ | ⟨h1, h2⟩
      · have e1 : ((i.natAbs : Int) : ℚ) = (i : ℚ) := by rw [Int.natAbs_of_nonneg h1]
        have e2 : ((j.natAbs : Int) : ℚ) = (j : ℚ) := by rw [Int.natAbs_of_nonneg h2.le]
        rw [← e1, ← e2, Int.cast_natCast, Int.cast_natCast]
      · have e1 : ((i.natAbs : Int) : ℚ) = -(i : ℚ) := by
          rw [Int.ofNat_natAbs_of_nonpos h1]; simp
        have e2 : ((j.natAbs : Int) : ℚ) = -(j : ℚ) := by
          rw [Int.ofNat_natAbs_of_nonpos h2.le]; simp
        have e3 : (i : ℚ) / (j : ℚ) = (-(i : ℚ)) / (-(j : ℚ)) := by rw [neg_div_neg_eq]
        rw [e3, ← e1, ← e2, Int.cast_natCast, Int.cast_natCast]
    rw [ofInt_ne_zero i hi, ofInt_ne_zero j hj, hsign, hq]
    exact div_fin_ceil impl i.natAbs j.natAbs _ (Int.natAbs_pos.2 hi) (Int.natAbs_pos.2 hj) ha

/-! ## Lemmas on the rounding of negative quotients -/

/-- The floor survives the rounding of a quotient whose numerator has at most 53 bits. -/
theorem floor_round (a b m : Nat) (z : Int) (X : ℚ) (ha2 : a ≤ 2 ^ 53)
    (hb : 0 < b) (hX : X = (a : ℚ) / (b : ℚ) * (2 : ℚ) ^ (-z)) (h52 : (2 : ℚ) ^ 52 ≤ X)
    (habs : |(m : ℚ) - X| ≤ 1 / 2) (hex : ∀ t : Nat, X = (t : ℚ) → m = t) :
    ⌊(m : ℚ) * (2 : ℚ) ^ z⌋ = ⌊(a : ℚ) / (b : ℚ)⌋ := by
  have hbq : (0 : ℚ) < b := by exact_mod_cast hb
  have haq : (a : ℚ) ≤ 2 ^ 53 := by exact_mod_cast ha2
  have hb1 : (1 : ℚ) ≤ b := by exact_mod_cast hb
  obtain ⟨hm1, hm2⟩ := abs_le.1 habs
  have hf1 : ((⌊(a : ℚ) / (b : ℚ)⌋ : Int) : ℚ) ≤ (a : ℚ) / (b : ℚ) := Int.floor_le _
  have hf2 : (a : ℚ) / (b : ℚ) < ((⌊(a : ℚ) / (b : ℚ)⌋ : Int) : ℚ) + 1 :=
    Int.lt_floor_add_one _
  generalize ⌊(a : ℚ) / (b : ℚ)⌋ = f at hf1 hf2 ⊢
  rw [Int.floor_eq_iff]
  have hxle : (a : ℚ) / (b : ℚ) ≤ 2 ^ 53 := by
    rw [div_le_iff₀ hbq]
    have h1 : (2 : ℚ) ^ 53 * 1 ≤ 2 ^ 53 * b := mul_le_mul_of_nonneg_left hb1 (by positivity)
    linarith
  rcases le_or_lt z 0 with hz | hz
  · obtain ⟨w, hw⟩ : ∃ w : Nat, z = -(w : Int) := ⟨(-z).toNat, by omega⟩
    subst hw
    have hU : (0 : ℚ) < (2 : ℚ) ^ w := by positivity
    simp only [neg_neg, zpow_natCast, zpow_neg] at hX ⊢
    generalize hUdef : (2 : ℚ) ^ w = U at hX hU ⊢
    have hUint : U = (((2 : Int) ^ w : Int) : ℚ) := by rw [← hUdef]; push_cast; rfl
    have hXb : X * b = a * U := by rw [hX]; field_simp
    have hfb1 : (f : ℚ) * b ≤ a := by rwa [le_div_iff₀ hbq] at hf1
    have hfb2 : (a : ℚ) + 1 ≤ ((f : ℚ) + 1) * b := by
      have h1 : (a : ℚ) < ((f : ℚ) + 1) * b := by rwa [div_lt_iff₀ hbq] at hf2
      have h2 : (a : Int) < (f + 1) * (b : Int) := by exact_mod_cast h1
      have h3 : (a : Int) + 1 ≤ (f + 1) * (b : Int) := by omega
      exact_mod_cast h3
    have hb2U : (b : ℚ) ≤ 2 * U := by
      have h1 : (2 : ℚ) ^ 52 * b ≤ X * b := mul_le_mul_of_nonneg_right h52 hbq.le
      have h2 : (a : ℚ) * U ≤ 2 ^ 53 * U := mul_le_mul_of_nonneg_right haq hU.le
      linarith
    have hXup : X ≤ ((f : ℚ) + 1) * U - 1 / 2 := by
      have h1 : X * b ≤ (((f : ℚ) + 1) * U - 1 / 2) * b := by
        have h3 : ((a : ℚ) + 1) * U ≤ ((f : ℚ) + 1) * b * U :=
          mul_le_mul_of_nonneg_right hfb2 hU.le
        rw [hXb]; linarith
      exact le_of_mul_le_mul_right h1 hbq
    have hXlow : (f : ℚ) * U ≤ X := by
      have h1 : (f : ℚ) * U * b ≤ X * b := by
        have h3 : (f : ℚ) * b * U ≤ a * U := mul_le_mul_of_nonneg_right hfb1 hU.le
        rw [hXb]; linarith
      exact le_of_mul_le_mul_right h1 hbq
    have hmup : (m : ℚ) ≤ ((f : ℚ) + 1) * U := by linarith
    have hmlow : (f : ℚ) * U ≤ m := by
      have h1 : (f : ℚ) * U - 1 < m := by linarith
      rw [hUint] at h1
      have h2 : f * 2 ^ w - 1 < (m : Int) := by exact_mod_cast h1
      have h3 : f * 2 ^ w ≤ (m : Int) := by omega
      rw [hUint]; exact_mod_cast h3
    have hmne : (m : ℚ) ≠ ((f : ℚ) + 1) * U := by
      intro heq
      have hXm : X = m - 1 / 2 := by linarith
      have hbU : (b : ℚ) = 2 * U := by
        have h1 : (a : ℚ) * U = (((f : ℚ) + 1) * U - 1 / 2) * b := by
          rw [← hXb, hXm, heq]
        have h3 : ((a : ℚ) + 1) * U ≤ ((f : ℚ) + 1) * b * U :=
          mul_le_mul_of_nonneg_right hfb2 hU.le
        have h2 : U ≤ b / 2 := by linarith
        linarith
      have haX : (a : ℚ) = 2 * X := by
        have h1 : (a : ℚ) * U = (2 * X) * U := by rw [← hXb, hbU]; ring
        exact mul_right_cancel₀ hU.ne' h1
      have hX52 : X = ((2 ^ 52 : Nat) : ℚ) := by
        push_cast; linarith
      have := hex _ hX52
      rw [this] at hXm
      rw [hX52] at hXm
      linarith
    have hmlt : (m : ℚ) < ((f : ℚ) + 1) * U := lt_of_le_of_ne hmup hmne
    constructor
    · rw [le_mul_inv_iff₀ hU]; exact hmlow
    · rw [mul_inv_lt_iff₀ hU]; exact hmlt
  · obtain ⟨w, hw⟩ : ∃ w : Nat, z = (w : Int) + 1 := ⟨(z - 1).toNat, by omega⟩
    subst hw
    have hU : (1 : ℚ) ≤ (2 : ℚ) ^ w := one_le_pow₀ (by norm_num)
    have hz2 : (2 : ℚ) ^ ((w : Int) + 1) = 2 ^ w * 2 := by
      rw [zpow_add_one₀ (by norm_num), zpow_natCast]
    rw [zpow_neg, hz2] at hX
    rw [hz2]
    generalize (2 : ℚ) ^ w = U at hX hU ⊢
    have hUpos : (0 : ℚ) < U := by linarith
    have hXU : X * (U * 2) = (a : ℚ) / b := by rw [hX]; field_simp; ring
    have hXle : X ≤ 2 ^ 52 := by
      have h1 : X * 2 ≤ X * (U * 2) := by
        have := mul_le_mul_of_nonneg_left hU (le_trans (by positivity) h52 : (0 : ℚ) ≤ X)
        linarith
      linarith
    have hX52 : X = ((2 ^ 52 : Nat) : ℚ) := by push_cast; linarith
    have hmX : (m : ℚ) = X := by rw [hex _ hX52, hX52]
    rw [hmX, hXU]
    exact ⟨hf1, hf2⟩

/-- Integer division computes the rational floor. -/
theorem floor_nat_div (m d : Nat) (hd : 0 < d) :
    ⌊(m : ℚ) / (d : ℚ)⌋ = ((m / d : Nat) : Int) := by
  have hdq : (0 : ℚ) < d := by exact_mod_cast hd
  have h1 : m / d * d ≤ m := Nat.div_mul_le_self _ _
  have h2 : m < (m / d + 1) * d := by
    rw [add_mul, one_mul]; exact Nat.lt_div_mul_add hd
  generalize m / d = q at h1 h2
  rw [Int.floor_eq_iff]
  constructor
  · rw [le_div_iff₀ hdq]; exact_mod_cast h1
  · rw [div_lt_iff₀ hdq]; exact_mod_cast h2

/-- On a non-positive finite value, `int(math.Ceil(x))` is minus the floor of its
magnitude. -/
theorem toInt_Ceil_neg (impl : Impl) (m : Nat) (z : Int)
    (h : ⌊(m : ℚ) * (2 : ℚ) ^ z⌋ ≤ 2 ^ 63) :
    F64.toInt impl (F64.Ceil (.fin true m z)) = -⌊(m : ℚ) * (2 : ℚ) ^ z⌋ := by
  rcases le_or_lt 0 z with hz | hz
  · obtain ⟨w, hw⟩ : ∃ w : Nat, z = (w : Int) := ⟨z.toNat, by omega⟩
    subst hw
    have hval : (m : ℚ) * (2 : ℚ) ^ (w : Int) = ((m * 2 ^ w : Nat) : ℚ) := by
      rw [zpow_natCast]; push_cast; rfl
    rw [hval, Int.floor_natCast] at h ⊢
    have hz' : (0 : Int) ≤ (w : Int) := hz
    simp only [F64.Ceil, hz', if_true, F64.toInt, Int.toNat_ofNat]
    rw [if_pos]
    have hnn : (0 : Int) ≤ ((m * 2 ^ w : Nat) : Int) := Int.natCast_nonneg _
    exact ⟨by linarith, by linarith [show (0 : Int) < 2 ^ 63 by norm_num]⟩
  · obtain ⟨w, hw⟩ : ∃ w : Nat, z = -(w : Int) := ⟨(-z).toNat, by omega⟩
    subst hw
    have hval : (m : ℚ) * (2 : ℚ) ^ (-(w : Int)) = (m : ℚ) / ((2 ^ w : Nat) : ℚ) := by
      rw [zpow_neg, zpow_natCast]; push_cast; rfl
    have hd : 0 < 2 ^ w := Nat.pow_pos (by norm_num)
    rw [hval, floor_nat_div m (2 ^ w) hd] at h ⊢
    have hz' : ¬ (0 : Int) ≤ -(w : Int) := by omega
    simp only [F64.Ceil, hz', if_false, F64.toInt, neg_neg, Int.toNat_ofNat,
      le_refl, if_true, Int.toNat_zero, pow_zero, mul_one]
    rw [if_pos]
    have hnn : (0 : Int) ≤ ((m / 2 ^ w : Nat) : Int) := Int.natCast_nonneg _
    exact ⟨by linarith, by linarith [show (0 : Int) < 2 ^ 63 by norm_num]⟩

/-- The ceiling of the rounded quotient of two converted integers of opposite sign,
both of at most 53 bits, is the exact ceiling. -/
theorem div_fin_floor (impl : Impl) (a b : Nat) (s t : Bool) (hst : xor s t = true)
    (ha0 : 0 < a) (hb0 : 0 < b) (ha : a ≤ 2 ^ 53) (hb : b ≤ 2 ^ 53) :
    F64.toInt impl (F64.Ceil (F64.div (.fin s (roundPos a 1).1 (roundPos a 1).2)
      (.fin t (roundPos b 1).1 (roundPos b 1).2))) = -⌊(a : ℚ) / (b : ℚ)⌋ := by
  obtain ⟨_, _, _, _, hmA⟩ := roundPos_spec a 1 ha0 Nat.one_pos
  obtain ⟨_, _, _, _, hmB⟩ := roundPos_spec b 1 hb0 Nat.one_pos
  have hvA := roundPos_exact a ha0 ha
  have hvB := roundPos_exact b hb0 hb
  generalize (roundPos a 1).1 = mA at hmA hvA
  generalize (roundPos a 1).2 = eA at hvA
  generalize (roundPos b 1).1 = mB at hmB hvB
  generalize (roundPos b 1).2 = eB at hvB
  have hpow : 0 < 2 ^ 52 := Nat.pow_pos (by norm_num)
  have hmA0 : mA ≠ 0 := Nat.pos_iff_ne_zero.1 (lt_of_lt_of_le hpow hmA)
  have hmB0 : mB ≠ 0 := Nat.pos_iff_ne_zero.1 (lt_of_lt_of_le hpow hmB)
  obtain ⟨h52, _, habs, hex, _⟩ :=
    roundPos_spec mA mB (Nat.pos_of_ne_zero hmA0) (Nat.pos_of_ne_zero hmB0)
  have hdiv : F64.div (.fin s mA eA) (.fin t mB eB) =
      .fin true (roundPos mA mB).1 ((roundPos mA mB).2 + eA - eB) := by
    simp [F64.div, hmA0, hmB0, hst]
  have hX := scaled_of_values mA mB eA eB a b hmB0 hvA hvB
  have hfloor := floor_round a b (roundPos mA mB).1 ((roundPos mA mB).2 + eA - eB)
    (scaled mA mB) ha hb0 hX h52 habs hex
  have hbound : ⌊(a : ℚ) / (b : ℚ)⌋ ≤ 2 ^ 63 := by
    have h1 : ⌊(a : ℚ) / (b : ℚ)⌋ ≤ ⌈(a : ℚ) / (b : ℚ)⌉ := Int.floor_le_ceil _
    have h2 := ceil_div_bound a b hb0 ha
    omega
  rw [hdiv, toInt_Ceil_neg impl _ _ (by rw [hfloor]; exact hbound), hfloor]

/-- The derived field of `Compute` for a quotient of negative value, numerator and
divisor of at most 53 bits: the ceiling of the exact quotient. -/
theorem ceil_quotient_neg (impl : Impl) (i j : Int) (ha : i.natAbs ≤ 2 ^ 53)
    (hb : j.natAbs ≤ 2 ^ 53) (hs : (0 < i ∧ j < 0) ∨ (i < 0 ∧ 0 < j)) :
    F64.toInt impl (F64.Ceil (F64.div (F64.ofInt i) (F64.ofInt j))) =
      ⌈(i : ℚ) / (j : ℚ)⌉ := by
  have hi : i ≠ 0 := by rcases hs with ⟨h1, _⟩ | ⟨h1, _⟩ <;> omega
  have hj : j ≠ 0 := by rcases hs with ⟨_, h2⟩ | ⟨_, h2⟩ <;> omega
  have hsign : xor (decide (i < 0)) (decide (j < 0)) = true := by
    rcases hs with ⟨h1, h2⟩ | ⟨h1, h2⟩
    · simp [not_lt.2 h1.le, h2]
    · simp [h1, not_lt.2 h2.le]
  have hq : (i : ℚ) / (j : ℚ) = -((i.natAbs : ℚ) / (j.natAbs : ℚ)) := by
    rcases hs with ⟨h1, h2⟩ | ⟨h1, h2⟩
    · have e1 : ((i.natAbs : Int) : ℚ) = (i : ℚ) := by rw [Int.natAbs_of_nonneg h1.le]
      have e2 : ((j.natAbs : Int) : ℚ) = -(j : ℚ) := by
        rw [Int.ofNat_natAbs_of_nonpos h2.le]; simp
      rw [← Int.cast_natCast i.natAbs, ← Int.cast_natCast j.natAbs, e1, e2, div_neg, neg_neg]
    · have e1 : ((i.natAbs : Int) : ℚ) = -(i : ℚ) := by
        rw [Int.ofNat_natAbs_of_nonpos h1.le]; simp
      have e2 : ((j.natAbs : Int) : ℚ) = (j : ℚ) := by rw [Int.natAbs_of_nonneg h2.le]
      rw [← Int.cast_natCast i.natAbs, ← Int.cast_natCast j.natAbs, e1, e2, neg_div, neg_neg]
  rw [ofInt_ne_zero i hi, ofInt_ne_zero j hj, hq, Int.ceil_neg]
  exact div_fin_floor impl i.natAbs j.natAbs _ _ hsign (Int.natAbs_pos.2 hi)
    (Int.natAbs_pos.2 hj) ha hb

/-- The derived field of `Compute` for operands of at most 53 bits and a divisor other
than zero: the ceiling of the exact quotient. -/
theorem ceil_quotient_any (impl : Impl) (i j : Int) (hj : j ≠ 0) (ha : i.natAbs ≤ 2 ^ 53)
    (hb : j.natAbs ≤ 2 ^ 53) :
    F64.toInt impl (F64.Ceil (F64.div (F64.ofInt i) (F64.ofInt j))) =
      ⌈(i : ℚ) / (j : ℚ)⌉ := by
  by_cases h1 : (0 ≤ i ∧ 0 < j) ∨ (i ≤ 0 ∧ j < 0)
  · exact ceil_quotient impl i j hj ha h1
  · exact ceil_quotient_neg impl i j ha hb (by omega)

/-! ## Lemmas on `Compute` -/

theorem fill_length (l : List Int) (k : Nat) :
    ((List.range k).foldl (fun acc i => acc.set i (i : Int)) l).length = l.length := by
  induction k with
  | zero => simp
  | succ k ih => simp [List.range_succ, List.foldl_append, ih]

theorem fill_get (l : List Int) (k i : Nat) :
    ((List.range k).foldl (fun acc i => acc.set i (i : Int)) l)[i]? =
      if i < k ∧ i < l.length then some (i : Int) else l[i]? := by
  induction k with
  | zero => simp
  | succ k ih =>
    simp only [List.range_succ, List.foldl_append, List.foldl_cons, List.foldl_nil]
    rw [List.getElem?_set, fill_length, ih]
    by_cases hki : k = i
    · subst hki
      by_cases hl : k < l.length
      · simp [hl]
      · simp [hl]; omega
    · simp only [hki, if_false]
      by_cases hik : i < k
      · have : i < k + 1 := by omega
        simp [hik, this]
      · have : ¬ i < k + 1 := by omega
        simp [hik, this]

/-- The loop of `Compute` turns `n` zeros into `0, 1, ..., n-1`. -/
theorem fillPages_replicate (n : Nat) :
    fillPages (List.replicate n 0) = (List.range n).map Int.ofNat := by
  apply List.ext_getElem?
  intro i
  unfold fillPages
  rw [fill_get]
  rw [List.getElem?_map]
  by_cases hi : i < n
  · rw [List.getElem?_range hi]
    simp [hi]
  · have h1 : (List.range n)[i]? = none :=
      List.getElem?_eq_none (by rw [List.length_range]; omega)
    have h2 : (List.replicate n (0 : Int))[i]? = none :=
      List.getElem?_eq_none (by rw [List.length_replicate]; omega)
    rw [h1, h2]
    simp [hi]

/-- The outcome of `Compute` once the two derived fields are known and the page count
can be allocated. -/
theorem Compute_eq_of (impl : Impl) (p : Pagination) (pc pg : Int)
    (hpc : F64.toInt impl
      (F64.Ceil (F64.div (F64.ofInt p.Total) (F64.ofInt p.MaxResults))) = pc)
    (hpg : F64.toInt impl
      (F64.Ceil (F64.div (F64.ofInt p.StartAt) (F64.ofInt p.MaxResults))) = pg)
    (h0 : 0 ≤ pc) (hlen : pc ≤ (impl.maxLen : Int)) :
    p.Compute impl = (.ret (), { p with
      PageCount := pc, Page := pg, Pages := (List.range pc.toNat).map Int.ofNat }) := by
  have hmk : makeInts impl pc = some (List.replicate pc.toNat 0) := by
    have : pc.toNat ≤ impl.maxLen := by omega
    simp [makeInts, h0, this]
  simp only [Pagination.Compute, hpc, hpg, hmk, fillPages_replicate]

/-- The field `Page` and the input fields in the struct `Compute` leaves. -/
theorem Compute_fields (impl : Impl) (p : Pagination) :
    (p.Compute impl).2.Page = F64.toInt impl
        (F64.Ceil (F64.div (F64.ofInt p.StartAt) (F64.ofInt p.MaxResults))) ∧
    (p.Compute impl).2.PageCount = F64.toInt impl
        (F64.Ceil (F64.div (F64.ofInt p.Total) (F64.ofInt p.MaxResults))) ∧
    (p.Compute impl).2.Total = p.Total ∧ (p.Compute impl).2.StartAt = p.StartAt ∧
    (p.Compute impl).2.MaxResults = p.MaxResults := by
  unfold Pagination.Compute
  simp only
  split <;> exact ⟨rfl, rfl, rfl, rfl, rfl⟩

/-- The quotient by the zero divisor: NaN for a zero numerator, else an infinity. -/
theorem div_ofInt_zero (i : Int) :
    F64.div (F64.ofInt i) (F64.ofInt 0) =
      if i = 0 then .nan else .inf (decide (i < 0)) := by
  by_cases hi : i = 0
  · subst hi; simp [F64.ofInt, F64.div]
  · obtain ⟨_, _, _, _, hm⟩ := roundPos_spec i.natAbs 1 (Int.natAbs_pos.2 hi) Nat.one_pos
    have hpow : 0 < 2 ^ 52 := Nat.pow_pos (by norm_num)
    have hm0 : (roundPos i.natAbs 1).1 ≠ 0 := Nat.pos_iff_ne_zero.1 (lt_of_lt_of_le hpow hm)
    rw [ofInt_ne_zero i hi]
    simp [F64.ofInt, F64.div, hm0, hi]

/-- A negative page count makes the allocation in `Compute` panic. -/
theorem Compute_crash_of (impl : Impl) (p : Pagination) (pc : Int)
    (hpc : F64.toInt impl
      (F64.Ceil (F64.div (F64.ofInt p.Total) (F64.ofInt p.MaxResults))) = pc)
    (hneg : pc < 0) : (p.Compute impl).1 = .crash := by
  have hmk : makeInts impl pc = none := by
    have : ¬ 0 ≤ pc := by omega
    simp [makeInts, this]
  simp only [Pagination.Compute, hpc, hmk]

/-! ## Pagination calculator: the properties -/

/-- C1 (as amended): for every total with 0 ≤ total ≤ 2^53, every maxResults > 0 and
every startAt, when the ceiling of total / maxResults does not exceed the length
`make` can allocate, `Compute` returns, `PageCount` is that ceiling, `Pages` has
`PageCount` elements and is the sequence 0, 1, ..., PageCount-1. -/
theorem Compute_pageCount (impl : Impl) (p : Pagination)
    (hT0 : 0 ≤ p.Total) (hT : p.Total ≤ 2 ^ 53) (hM : 0 < p.MaxResults)
    (halloc : ⌈(p.Total : ℚ) / (p.MaxResults : ℚ)⌉ ≤ (impl.maxLen : Int)) :
    (p.Compute impl).1 = .ret () ∧
    (p.Compute impl).2.PageCount = ⌈(p.Total : ℚ) / (p.MaxResults : ℚ)⌉ ∧
    ((p.Compute impl).2.Pages.length : Int) = (p.Compute impl).2.PageCount ∧
    (p.Compute impl).2.Pages =
      (List.range (p.Compute impl).2.PageCount.toNat).map Int.ofNat := by
  have hpc := ceil_quotient impl p.Total p.MaxResults hM.ne' (by omega) (Or.inl ⟨hT0, hM⟩)
  have h0 : 0 ≤ ⌈(p.Total : ℚ) / (p.MaxResults : ℚ)⌉ := by
    apply Int.ceil_nonneg
    apply div_nonneg
    · exact_mod_cast hT0
    · exact_mod_cast hM.le
  rw [Compute_eq_of impl p _ _ hpc rfl h0 halloc]
  refine ⟨rfl, rfl, ?_, rfl⟩
  simp only [List.length_map, List.length_range]
  exact Int.toNat_of_nonneg h0

set_option maxRecDepth 4000 in
/-- C1 (as amended) at the examples of the specification: `compute(101, 0, 50)` gives
three pages 0, 1, 2 and `compute(0, 0, 50)` gives no page. -/
theorem Compute_pageCount_witness :
    ((Pagination.mk 101 0 50 0 0 []).Compute amd64 =
        (.ret (), ⟨101, 0, 50, 0, 3, [0, 1, 2]⟩) ∧
      ((Pagination.mk 101 0 50 0 0 []).Compute amd64).2.PageCount =
        ⌈((101 : Int) : ℚ) / ((50 : Int) : ℚ)⌉) ∧
    ((Pagination.mk 0 0 50 0 0 []).Compute amd64 = (.ret (), ⟨0, 0, 50, 0, 0, []⟩) ∧
      ((Pagination.mk 0 0 50 0 0 []).Compute amd64).2.PageCount =
        ⌈((0 : Int) : ℚ) / ((50 : Int) : ℚ)⌉) :=
  ⟨⟨by decide,
    (Compute_pageCount amd64 ⟨101, 0, 50, 0, 0, []⟩ (by decide) (by decide) (by decide)
      (Int.ceil_le.2 (by norm_num [amd64]))).2.1⟩,
   ⟨by decide,
    (Compute_pageCount amd64 ⟨0, 0, 50, 0, 0, []⟩ (by decide) (by decide) (by decide)
      (Int.ceil_le.2 (by norm_num [amd64]))).2.1⟩⟩

set_option maxRecDepth 4000 in
/-- C1 fails as stated: for total = 2^53 + 1 and maxResults = 2^53 the conversion to
`float64` rounds the total to 2^53 and `PageCount` is 1, the ceiling of the
quotient is 2; and for total = 2^46 and maxResults = 1 the allocation of the
2^46 pages panics on linux/amd64 (more than 2^48 bytes). -/
theorem Compute_pageCount_inexact :
    (Pagination.mk 9007199254740993 0 9007199254740992 0 0 []).Compute amd64 =
      (.ret (), ⟨9007199254740993, 0, 9007199254740992, 0, 1, [0]⟩) ∧
    ⌈((9007199254740993 : Int) : ℚ) / ((9007199254740992 : Int) : ℚ)⌉ = 2 ∧
    (Pagination.mk 70368744177664 0 1 0 0 []).Compute amd64 =
      (.crash, ⟨70368744177664, 0, 1, 0, 70368744177664, []⟩) := by
  refine ⟨by decide, ?_, by decide⟩
  rw [Int.ceil_eq_iff]
  norm_num

/-- C2 (as amended): for every startAt with 0 ≤ startAt ≤ 2^53 and every maxResults > 0,
in the struct `Compute` leaves (also when the allocation of `Pages` panics) `Page`
is the ceiling of startAt / maxResults and `Total`, `StartAt` and `MaxResults`
are unchanged. -/
theorem Compute_page (impl : Impl) (p : Pagination)
    (hS0 : 0 ≤ p.StartAt) (hS : p.StartAt ≤ 2 ^ 53) (hM : 0 < p.MaxResults) :
    (p.Compute impl).2.Page = ⌈(p.StartAt : ℚ) / (p.MaxResults : ℚ)⌉ ∧
    (p.Compute impl).2.Total = p.Total ∧ (p.Compute impl).2.StartAt = p.StartAt ∧
    (p.Compute impl).2.MaxResults = p.MaxResults := by
  obtain ⟨h1, _, h3, h4, h5⟩ := Compute_fields impl p
  rw [h1, ceil_quotient impl p.StartAt p.MaxResults hM.ne' (by omega) (Or.inl ⟨hS0, hM⟩)]
  exact ⟨rfl, h3, h4, h5⟩

set_option maxRecDepth 4000 in
/-- C2 (as amended) at the example of the specification: `compute(100, 50, 50)` gives
page 1. -/
theorem Compute_page_witness :
    (Pagination.mk 100 50 50 0 0 []).Compute amd64 =
      (.ret (), ⟨100, 50, 50, 1, 2, [0, 1]⟩) ∧
    ((Pagination.mk 100 50 50 0 0 []).Compute amd64).2.Page =
      ⌈((50 : Int) : ℚ) / ((50 : Int) : ℚ)⌉ :=
  ⟨by decide,
   (Compute_page amd64 ⟨100, 50, 50, 0, 0, []⟩ (by decide) (by decide) (by decide)).1⟩

set_option maxRecDepth 4000 in
/-- C2 fails as stated: for startAt = 2^53 + 1 and maxResults = 2^53 the conversion to
`float64` rounds startAt to 2^53 and `Page` is 1, the ceiling of the quotient is 2. -/
theorem Compute_page_inexact :
    (Pagination.mk 0 9007199254740993 9007199254740992 0 0 []).Compute amd64 =
      (.ret (), ⟨0, 9007199254740993, 9007199254740992, 1, 0, []⟩) ∧
    ⌈((9007199254740993 : Int) : ℚ) / ((9007199254740992 : Int) : ℚ)⌉ = 2 := by
  refine ⟨by decide, ?_⟩
  rw [Int.ceil_eq_iff]
  norm_num

/-- C3 (as amended): `Compute` checks nothing and has no error result. For
-2^53 ≤ maxResults < 0 and total, startAt between -2^53 and 2^53, in the struct
it leaves `PageCount` is the ceiling of total / maxResults and `Page` the ceiling
of startAt / maxResults; it returns, with `Pages` the sequence 0, ..., PageCount-1,
when that page count is non-negative and within the length `make` can allocate,
and the allocation panics when the page count is negative. For maxResults = 0
the quotients are NaN (zero numerator) or an infinity, and `PageCount` and `Page`
are what the implementation makes of their conversion to `int`. -/
theorem Compute_no_guard (impl : Impl) (p : Pagination) :
    (p.MaxResults < 0 → -2 ^ 53 ≤ p.MaxResults → -2 ^ 53 ≤ p.Total → p.Total ≤ 2 ^ 53 →
      -2 ^ 53 ≤ p.StartAt → p.StartAt ≤ 2 ^ 53 →
      (p.Compute impl).2.PageCount = ⌈(p.Total : ℚ) / (p.MaxResults : ℚ)⌉ ∧
      (p.Compute impl).2.Page = ⌈(p.StartAt : ℚ) / (p.MaxResults : ℚ)⌉ ∧
      (0 ≤ ⌈(p.Total : ℚ) / (p.MaxResults : ℚ)⌉ →
        ⌈(p.Total : ℚ) / (p.MaxResults : ℚ)⌉ ≤ (impl.maxLen : Int) →
        p.Compute impl = (.ret (), { p with
          PageCount := ⌈(p.Total : ℚ) / (p.MaxResults : ℚ)⌉,
          Page := ⌈(p.StartAt : ℚ) / (p.MaxResults : ℚ)⌉,
          Pages :=
            (List.range ⌈(p.Total : ℚ) / (p.MaxResults : ℚ)⌉.toNat).map Int.ofNat })) ∧
      (⌈(p.Total : ℚ) / (p.MaxResults : ℚ)⌉ < 0 → (p.Compute impl).1 = .crash)) ∧
    (p.MaxResults = 0 →
      (p.Compute impl).2.PageCount =
        impl.intOfNonRep (if p.Total = 0 then .nan else .inf (decide (p.Total < 0))) ∧
      (p.Compute impl).2.Page =
        impl.intOfNonRep (if p.StartAt = 0 then .nan else .inf (decide (p.StartAt < 0)))) := by
  constructor
  · intro hM hM2 hT1 hT2 hS1 hS2
    have hpc := ceil_quotient_any impl p.Total p.MaxResults hM.ne (by omega) (by omega)
    have hpg := ceil_quotient_any impl p.StartAt p.MaxResults hM.ne (by omega) (by omega)
    obtain ⟨h1, h2, _, _, _⟩ := Compute_fields impl p
    refine ⟨by rw [h2, hpc], by rw [h1, hpg], ?_, ?_⟩
    · intro h0 halloc
      exact Compute_eq_of impl p _ _ hpc hpg h0 halloc
    · intro hneg
      exact Compute_crash_of impl p _ hpc hneg
  · intro hM
    obtain ⟨h1, h2, _, _, _⟩ := Compute_fields impl p
    rw [h1, h2, hM, div_ofInt_zero, div_ofInt_zero]
    constructor
    · by_cases hT : p.Total = 0
      · simp [hT, F64.Ceil, F64.toInt]
      · simp [hT, F64.Ceil, F64.toInt]
    · by_cases hS : p.StartAt = 0
      · simp [hS, F64.Ceil, F64.toInt]
      · simp [hS, F64.Ceil, F64.toInt]

set_option maxRecDepth 4000 in
/-- C3 (as amended) at maxResults = -50: total = -100, startAt = -50 gives two pages,
total = 100 gives the page count -2 and a panic; and at maxResults = 0 with
total = 100 on linux/amd64, where the conversion of +Inf is the smallest `int`. -/
theorem Compute_no_guard_witness :
    (Pagination.mk (-100) (-50) (-50) 0 0 []).Compute amd64 =
      (.ret (), { (Pagination.mk (-100) (-50) (-50) 0 0 []) with
        PageCount := ⌈((-100 : Int) : ℚ) / ((-50 : Int) : ℚ)⌉,
        Page := ⌈((-50 : Int) : ℚ) / ((-50 : Int) : ℚ)⌉,
        Pages := (List.range
          ⌈((-100 : Int) : ℚ) / ((-50 : Int) : ℚ)⌉.toNat).map Int.ofNat }) ∧
    ((Pagination.mk 100 0 (-50) 0 0 []).Compute amd64).1 = .crash ∧
    (Pagination.mk 100 0 (-50) 0 0 []).Compute amd64 = (.crash, ⟨100, 0, -50, 0, -2, []⟩) ∧
    ((Pagination.mk 100 0 0 0 0 []).Compute amd64).2.PageCount = -2 ^ 63 :=
  ⟨((Compute_no_guard amd64 ⟨-100, -50, -50, 0, 0, []⟩).1 (by decide) (by decide) (by decide)
      (by decide) (by decide) (by decide)).2.2.1
      (Int.ceil_nonneg (by norm_num)) (Int.ceil_le.2 (by norm_num [amd64])),
   ((Compute_no_guard amd64 ⟨100, 0, -50, 0, 0, []⟩).1 (by decide) (by decide) (by decide)
      (by decide) (by decide) (by decide)).2.2.2
      (by
        have h : ⌈((100 : Int) : ℚ) / ((-50 : Int) : ℚ)⌉ = -2 := by
          rw [Int.ceil_eq_iff]; norm_num
        rw [h]; decide),
   by decide,
   ((Compute_no_guard amd64 ⟨100, 0, 0, 0, 0, []⟩).2 rfl).1⟩

set_option maxRecDepth 4000 in
/-- C3 fails as stated: with maxResults = -50, total = -100 and startAt = -50 no error is
raised; `Compute` returns with the derived fields page 1, page count 2 and the
pages 0, 1. -/
theorem Compute_negative_maxResults :
    (Pagination.mk (-100) (-50) (-50) 0 0 []).Compute amd64 =
      (.ret (), ⟨-100, -50, -50, 1, 2, [0, 1]⟩) := by
  decide

end Gojira
